import Mathlib

/-!
# Verification of the zkUSD transaction construction and signing scripts

A shallow embedding, in Lean 4, of the Bitcoin transaction tooling of the
`zkusd-protocol` repository: the varint codec, Base58Check WIF handling,
Bech32 address machinery and bit-group conversion (`generate-wallet.py`),
the BIP143 sighash construction, ECDSA scalar signing and transaction
reassembly (`sign-and-broadcast.py`), and the reveal-transaction builder
(`build_reveal_tx.py`).

Bytes are modelled as `List Nat` (each entry intended `< 256`), Python
integers as `Nat`.  Python `for`-loops over lists become `List.foldl`;
Python `while`-loops become fuel-carrying structural recursions whose fuel
provably dominates the iteration count at every call site.  Where the
Python would raise an exception, the embedding returns an `Except`/`Option`
error or, when no claim exercises the raising branch, a documented default.

Library primitives used by the scripts (`hashlib.sha256`,
`hashlib.new('ripemd160')`, `hmac.new(..., 'sha256')`) are implemented
here in full so every definition is executable.
-/

namespace ZkUSD

/-! ## Byte-string primitives

`beVal`/`leVal` are Python's `int.from_bytes(_, 'big'/'little')`;
`beBytes`/`leBytes` are `int.to_bytes(length, 'big'/'little')` (Python
raises `OverflowError` when the value does not fit; the embedding truncates
modulo `256^length`, and every theorem that feeds a value in keeps it in
range). -/

def beVal (l : List Nat) : Nat := l.foldl (fun a b => a * 256 + b) 0

def leVal (l : List Nat) : Nat := l.foldr (fun b a => b + 256 * a) 0

def beBytes : Nat → Nat → List Nat
  | 0, _ => []
  | k + 1, n => beBytes k (n / 256) ++ [n % 256]

def leBytes : Nat → Nat → List Nat
  | 0, _ => []
  | k + 1, n => n % 256 :: leBytes k (n / 256)

/-! ## VarintCodec (`sign-and-broadcast.py`, `decode_varint` / `encode_varint`)

Python list slicing (`data[a:b]`) never fails — it silently clamps to the
available bytes — so a truncated varint payload is read as a *shorter*
little-endian number, not rejected.  The only raising operation is the
initial `data[offset]` subscript (`IndexError` when out of range).  The
spec's `InvalidEncoding` failure is included in the error type so the
claim about it can be stated; the embedding shows it is never produced. -/

inductive VarintErr where
  | invalidEncoding : VarintErr
  | indexOutOfRange : VarintErr
deriving DecidableEq

def decode_varint (data : List Nat) (offset : Nat) : Except VarintErr (Nat × Nat) :=
  if offset < data.length then
    let first_byte := data.getD offset 0
    if first_byte < 0xfd then Except.ok (first_byte, 1)
    else if first_byte = 0xfd then Except.ok (leVal ((data.drop (offset + 1)).take 2), 3)
    else if first_byte = 0xfe then Except.ok (leVal ((data.drop (offset + 1)).take 4), 5)
    else Except.ok (leVal ((data.drop (offset + 1)).take 8), 9)
  else Except.error VarintErr.indexOutOfRange

def encode_varint (n : Nat) : List Nat :=
  if n < 0xfd then [n]
  else if n ≤ 0xffff then 0xfd :: leBytes 2 n
  else if n ≤ 0xffffffff then 0xfe :: leBytes 4 n
  else 0xff :: leBytes 8 n

/-! ## SHA-256

Executable implementation of the `hashlib.sha256` primitive the scripts
call (FIPS 180-4).  32-bit words are `Nat` reduced modulo `2^32`. -/

def w32 (x : Nat) : Nat := x % 4294967296

def rotr32 (r x : Nat) : Nat := w32 ((x >>> r) ||| (x <<< (32 - r)))

def shaBigSigma0 (x : Nat) : Nat := rotr32 2 x ^^^ rotr32 13 x ^^^ rotr32 22 x

def shaBigSigma1 (x : Nat) : Nat := rotr32 6 x ^^^ rotr32 11 x ^^^ rotr32 25 x

def shaSmallSigma0 (x : Nat) : Nat := rotr32 7 x ^^^ rotr32 18 x ^^^ (x >>> 3)

def shaSmallSigma1 (x : Nat) : Nat := rotr32 17 x ^^^ rotr32 19 x ^^^ (x >>> 10)

def shaK : List Nat :=
  [1116352408, 1899447441, 3049323471, 3921009573, 961987163, 1508970993,
   2453635748, 2870763221, 3624381080, 310598401, 607225278, 1426881987,
   1925078388, 2162078206, 2614888103, 3248222580, 3835390401, 4022224774,
   264347078, 604807628, 770255983, 1249150122, 1555081692, 1996064986,
   2554220882, 2821834349, 2952996808, 3210313671, 3336571891, 3584528711,
   113926993, 338241895, 666307205, 773529912, 1294757372, 1396182291,
   1695183700, 1986661051, 2177026350, 2456956037, 2730485921, 2820302411,
   3259730800, 3345764771, 3516065817, 3600352804, 4094571909, 275423344,
   430227734, 506948616, 659060556, 883997877, 958139571, 1322822218,
   1537002063, 1747873779, 1955562222, 2024104815, 2227730452, 2361852424,
   2428436474, 2756734187, 3204031479, 3329325298]

/-- Big-endian 4-byte groups to 32-bit words. -/
def beWords : List Nat → List Nat
  | a :: b :: c :: d :: rest => (((a * 256 + b) * 256 + c) * 256 + d) :: beWords rest
  | _ => []

/-- Extend the 16 block words to 64 schedule words. -/
def shaExtendStep (w : List Nat) : List Nat :=
  w ++ [w32 (shaSmallSigma1 (w.getD (w.length - 2) 0) + w.getD (w.length - 7) 0 +
             shaSmallSigma0 (w.getD (w.length - 15) 0) + w.getD (w.length - 16) 0)]

def shaExtend : Nat → List Nat → List Nat
  | 0, w => w
  | f + 1, w => shaExtend f (shaExtendStep w)

structure ShaState where
  a : Nat
  b : Nat
  c : Nat
  d : Nat
  e : Nat
  f : Nat
  g : Nat
  h : Nat

def shaRound (st : ShaState) (kw : Nat × Nat) : ShaState :=
  let ch := (st.e &&& st.f) ^^^ ((st.e ^^^ 0xffffffff) &&& st.g)
  let maj := (st.a &&& st.b) ^^^ (st.a &&& st.c) ^^^ (st.b &&& st.c)
  let t1 := w32 (st.h + shaBigSigma1 st.e + ch + kw.1 + kw.2)
  let t2 := w32 (shaBigSigma0 st.a + maj)
  ⟨w32 (t1 + t2), st.a, st.b, st.c, w32 (st.d + t1), st.e, st.f, st.g⟩

def shaCompress (hs : List Nat) (block : List Nat) : List Nat :=
  let ws := shaExtend 48 (beWords block)
  let init : ShaState :=
    ⟨hs.getD 0 0, hs.getD 1 0, hs.getD 2 0, hs.getD 3 0,
     hs.getD 4 0, hs.getD 5 0, hs.getD 6 0, hs.getD 7 0⟩
  let st := (shaK.zip ws).foldl shaRound init
  [w32 (hs.getD 0 0 + st.a), w32 (hs.getD 1 0 + st.b), w32 (hs.getD 2 0 + st.c),
   w32 (hs.getD 3 0 + st.d), w32 (hs.getD 4 0 + st.e), w32 (hs.getD 5 0 + st.f),
   w32 (hs.getD 6 0 + st.g), w32 (hs.getD 7 0 + st.h)]

/-- Split into 64-byte blocks (fuel-carrying; fuel = list length suffices). -/
def blocks64 : Nat → List Nat → List (List Nat)
  | 0, _ => []
  | f + 1, l => if l = [] then [] else l.take 64 :: blocks64 f (l.drop 64)

def shaPad (msg : List Nat) : List Nat :=
  msg ++ 0x80 :: List.replicate ((64 - (msg.length + 9) % 64) % 64) 0 ++
    beBytes 8 (8 * msg.length)

def shaH0 : List Nat :=
  [0x6a09e667, 0xbb67ae85, 0x3c6ef372, 0xa54ff53a, 0x510e527f, 0x9b05688c, 0x1f83d9ab, 0x5be0cd19]

def sha256 (msg : List Nat) : List Nat :=
  let padded := shaPad msg
  let hs := (blocks64 padded.length padded).foldl shaCompress shaH0
  beBytes 4 (hs.getD 0 0) ++ beBytes 4 (hs.getD 1 0) ++ beBytes 4 (hs.getD 2 0) ++
  beBytes 4 (hs.getD 3 0) ++ beBytes 4 (hs.getD 4 0) ++ beBytes 4 (hs.getD 5 0) ++
  beBytes 4 (hs.getD 6 0) ++ beBytes 4 (hs.getD 7 0)

def double_sha256 (data : List Nat) : List Nat := sha256 (sha256 data)

/-! ## RIPEMD-160

Executable implementation of the `hashlib.new('ripemd160')` primitive used
by `hash160` in both scripts.  Little-endian message words and length. -/

def leWords : List Nat → List Nat
  | a :: b :: c :: d :: rest => (((d * 256 + c) * 256 + b) * 256 + a) :: leWords rest
  | _ => []

def rol32 (r x : Nat) : Nat := w32 ((x <<< r) ||| (x >>> (32 - r)))

/-- The five round functions, selected by the step index `j`. -/
def rmdF (j x y z : Nat) : Nat :=
  if j < 16 then x ^^^ y ^^^ z
  else if j < 32 then (x &&& y) ||| ((x ^^^ 0xffffffff) &&& z)
  else if j < 48 then (x ||| (y ^^^ 0xffffffff)) ^^^ z
  else if j < 64 then (x &&& z) ||| (y &&& (z ^^^ 0xffffffff))
  else x ^^^ (y ||| (z ^^^ 0xffffffff))

def rmdKL (j : Nat) : Nat :=
  if j < 16 then 0 else if j < 32 then 0x5a827999 else if j < 48 then 0x6ed9eba1
  else if j < 64 then 0x8f1bbcdc else 0xa953fd4e

def rmdKR (j : Nat) : Nat :=
  if j < 16 then 0x50a28be6 else if j < 32 then 0x5c4dd124 else if j < 48 then 0x6d703ef3
  else if j < 64 then 0x7a6d76e9 else 0

def rmdRL : List Nat :=
  [0, 1, 2, 3, 4, 5, 6, 7, 8, 9, 10, 11, 12, 13, 14, 15,
   7, 4, 13, 1, 10, 6, 15, 3, 12, 0, 9, 5, 2, 14, 11, 8,
   3, 10, 14, 4, 9, 15, 8, 1, 2, 7, 0, 6, 13, 11, 5, 12,
   1, 9, 11, 10, 0, 8, 12, 4, 13, 3, 7, 15, 14, 5, 6, 2,
   4, 0, 5, 9, 7, 12, 2, 10, 14, 1, 3, 8, 11, 6, 15, 13]

def rmdRR : List Nat :=
  [5, 14, 7, 0, 9, 2, 11, 4, 13, 6, 15, 8, 1, 10, 3, 12,
   6, 11, 3, 7, 0, 13, 5, 10, 14, 15, 8, 12, 4, 9, 1, 2,
   15, 5, 1, 3, 7, 14, 6, 9, 11, 8, 12, 2, 10, 0, 4, 13,
   8, 6, 4, 1, 3, 11, 15, 0, 5, 12, 2, 13, 9, 7, 10, 14,
   12, 15, 10, 4, 1, 5, 8, 7, 6, 2, 13, 14, 0, 3, 9, 11]

def rmdSL : List Nat :=
  [11, 14, 15, 12, 5, 8, 7, 9, 11, 13, 14, 15, 6, 7, 9, 8,
   7, 6, 8, 13, 11, 9, 7, 15, 7, 12, 15, 9, 11, 7, 13, 12,
   11, 13, 6, 7, 14, 9, 13, 15, 14, 8, 13, 6, 5, 12, 7, 5,
   11, 12, 14, 15, 14, 15, 9, 8, 9, 14, 5, 6, 8, 6, 5, 12,
   9, 15, 5, 11, 6, 8, 13, 12, 5, 12, 13, 14, 11, 8, 5, 6]

def rmdSR : List Nat :=
  [8, 9, 9, 11, 13, 15, 15, 5, 7, 7, 8, 11, 14, 14, 12, 6,
   9, 13, 15, 7, 12, 8, 9, 11, 7, 7, 12, 7, 6, 15, 13, 11,
   9, 7, 15, 11, 8, 6, 6, 14, 12, 13, 5, 14, 13, 13, 7, 5,
   15, 5, 8, 11, 14, 14, 6, 14, 6, 9, 12, 9, 12, 5, 15, 8,
   8, 5, 12, 9, 12, 5, 14, 6, 8, 13, 6, 5, 15, 13, 11, 11]

/-- One line of the compression: state is `(a, b, c, d, e)`.  The left line
applies the round functions in order (`fj j = j`), the right line in reverse
order (`fj j = 79 - j`). -/
def rmdStep (x : List Nat) (r s : List Nat) (kf fj : Nat → Nat)
    (st : Nat × Nat × Nat × Nat × Nat) (j : Nat) : Nat × Nat × Nat × Nat × Nat :=
  let (a, b, c, d, e) := st
  let t := w32 (rol32 (s.getD j 0) (w32 (a + rmdF (fj j) b c d + x.getD (r.getD j 0) 0 + kf j)) + e)
  (e, t, b, rol32 10 c, d)

def rmdCompress (hs : List Nat) (block : List Nat) : List Nat :=
  let x := leWords block
  let h0 := hs.getD 0 0
  let h1 := hs.getD 1 0
  let h2 := hs.getD 2 0
  let h3 := hs.getD 3 0
  let h4 := hs.getD 4 0
  let lft := (List.range 80).foldl (rmdStep x rmdRL rmdSL rmdKL (fun j => j)) (h0, h1, h2, h3, h4)
  let rgt := (List.range 80).foldl (rmdStep x rmdRR rmdSR rmdKR (fun j => 79 - j)) (h0, h1, h2, h3, h4)
  let (aL, bL, cL, dL, eL) := lft
  let (aR, bR, cR, dR, eR) := rgt
  [w32 (h1 + cL + dR), w32 (h2 + dL + eR), w32 (h3 + eL + aR),
   w32 (h4 + aL + bR), w32 (h0 + bL + cR)]

def rmdPad (msg : List Nat) : List Nat :=
  msg ++ 0x80 :: List.replicate ((64 - (msg.length + 9) % 64) % 64) 0 ++
    leBytes 8 (8 * msg.length)

def rmdH0 : List Nat := [0x67452301, 0xefcdab89, 0x98badcfe, 0x10325476, 0xc3d2e1f0]

def ripemd160 (msg : List Nat) : List Nat :=
  let padded := rmdPad msg
  let hs := (blocks64 padded.length padded).foldl rmdCompress rmdH0
  leBytes 4 (hs.getD 0 0) ++ leBytes 4 (hs.getD 1 0) ++ leBytes 4 (hs.getD 2 0) ++
  leBytes 4 (hs.getD 3 0) ++ leBytes 4 (hs.getD 4 0)

/-- Function `hash160` (`RIPEMD160(SHA256(data))`), from both scripts. -/
def hash160 (data : List Nat) : List Nat := ripemd160 (sha256 data)

/-! ## HMAC-SHA256 (`hmac.new(key, msg, 'sha256')`, used for the nonce). -/

def hmacSha256 (key msg : List Nat) : List Nat :=
  let k0 := if 64 < key.length then sha256 key else key
  let kp := k0 ++ List.replicate (64 - k0.length) 0
  sha256 ((kp.map (fun b => b ^^^ 0x5c)) ++ sha256 ((kp.map (fun b => b ^^^ 0x36)) ++ msg))

/-! ## Base58Check / WIF

`base58_encode` and `generate_wif` from `generate-wallet.py`;
`wif_to_privkey` from `sign-and-broadcast.py`.  `wif_to_privkey` decodes by
accumulating `num = num * 58 + ALPHABET.index(char)` (a `ValueError` on a
foreign character), converts with `num.to_bytes(38, 'big')` (an
`OverflowError` when `num ≥ 256^38`), restores leading zero bytes from
leading `'1'` characters, verifies the 4-byte double-SHA256 checksum, and
extracts bytes 1–32 of the payload. -/

def ALPHABET : List Char :=
  ['1', '2', '3', '4', '5', '6', '7', '8', '9',
   'A', 'B', 'C', 'D', 'E', 'F', 'G', 'H', 'J', 'K', 'L', 'M', 'N',
   'P', 'Q', 'R', 'S', 'T', 'U', 'V', 'W', 'X', 'Y', 'Z',
   'a', 'b', 'c', 'd', 'e', 'f', 'g', 'h', 'i', 'j', 'k', 'm', 'n',
   'o', 'p', 'q', 'r', 's', 't', 'u', 'v', 'w', 'x', 'y', 'z']

/-- The `while num > 0` digit loop of `base58_encode`, prepending into `acc`;
fuel ≥ `num` dominates the iteration count. -/
def b58loop : Nat → Nat → List Char → List Char
  | 0, _, acc => acc
  | f + 1, num, acc =>
    if num = 0 then acc
    else b58loop f (num / 58) (ALPHABET.getD (num % 58) '1' :: acc)

def leadingZeroBytes (data : List Nat) : Nat := (data.takeWhile (fun b => b = 0)).length

def base58_encode (data : List Nat) : List Char :=
  List.replicate (leadingZeroBytes data) '1' ++ b58loop (beVal data) (beVal data) []

def generate_wif (privkey_bytes : List Nat) (testnet : Bool) : List Char :=
  let vb := if testnet then 0xef else 0x80
  let extended := vb :: privkey_bytes ++ [0x01]
  let checksum := (sha256 (sha256 extended)).take 4
  base58_encode (extended ++ checksum)

inductive WifErr where
  | invalidChar : WifErr
  | overflow : WifErr
  | badChecksum : WifErr
deriving DecidableEq

def base58CharsToNum (w : List Char) : Option Nat :=
  w.foldl (fun acc c => acc.bind fun n => (ALPHABET.indexOf? c).map fun i => n * 58 + i)
    (some 0)

/-- The decoded byte string: `bytes(leading_ones) + num.to_bytes(38).lstrip(zeros)`. -/
def wifAllBytes (w : List Char) (num : Nat) : List Nat :=
  List.replicate (w.takeWhile (fun c => c = '1')).length 0 ++
    (beBytes 38 num).dropWhile (fun b => b = 0)

def wifPayload (ab : List Nat) : List Nat := ab.take (ab.length - 4)

def wifChecksumBytes (ab : List Nat) : List Nat := ab.drop (ab.length - 4)

def wif_to_privkey (w : List Char) : Except WifErr (List Nat) :=
  match base58CharsToNum w with
  | none => Except.error WifErr.invalidChar
  | some num =>
    if num < 256 ^ 38 then
      let all_bytes := wifAllBytes w num
      if (double_sha256 (wifPayload all_bytes)).take 4 ≠ wifChecksumBytes all_bytes then
        Except.error WifErr.badChecksum
      else
        Except.ok (((wifPayload all_bytes).drop 1).take 32)
    else Except.error WifErr.overflow

/-! ### Base58 round-trip lemmas -/

/-- The pure base-58 digit string of `num`, most significant digit first —
the fixpoint the fuelled `b58loop` computes. -/
def digits58 (num : Nat) : List Char :=
  if h : num = 0 then []
  else
    have : num / 58 < num := Nat.div_lt_self (Nat.pos_of_ne_zero h) (by norm_num)
    digits58 (num / 58) ++ [ALPHABET.getD (num % 58) '1']

def b58Fold (a : Nat) (l : List Char) : Nat :=
  l.foldl (fun x c => x * 58 + (ALPHABET.indexOf? c).getD 0) a

/-! ## Bech32 checksum (`generate-wallet.py`)

`bech32_polymod`, `bech32_hrp_expand`, `bech32_create_checksum` transcribed
from the source.  HRP characters are carried as their code points
(`Char.toNat`), data values as 5-bit group values.  The source hard-codes
the final XOR constant `1` (the BIP-173 bech32 constant); it takes no
witness-version input at all.  `bech32ChecksumWithConst` is the same
computation with the constant as a parameter, following the spec's
description of a version-selected constant, for comparison. -/

def bech32GEN : List Nat := [0x3b6a57b2, 0x26508e6d, 0x1ea119fa, 0x3d4233dd, 0x2a1462b3]

def bech32_polymod (values : List Nat) : Nat :=
  values.foldl
    (fun chk v =>
      let b := chk >>> 25
      (List.range 5).foldl
        (fun c i => if (b >>> i) &&& 1 = 1 then c ^^^ bech32GEN.getD i 0 else c)
        (((chk &&& 0x1ffffff) <<< 5) ^^^ v))
    1

def bech32_hrp_expand (hrp : List Nat) : List Nat :=
  hrp.map (fun c => c >>> 5) ++ [0] ++ hrp.map (fun c => c &&& 31)

def bech32_create_checksum (hrp data : List Nat) : List Nat :=
  let values := bech32_hrp_expand hrp ++ data
  let polymod := bech32_polymod (values ++ [0, 0, 0, 0, 0, 0]) ^^^ 1
  (List.range 6).map (fun i => (polymod >>> (5 * (5 - i))) &&& 31)

/-- The spec's parametric form: identical computation, but the final XOR
constant is an argument (1 for bech32, 0x2bc830a3 for bech32m). -/
def bech32ChecksumWithConst (c : Nat) (hrp data : List Nat) : List Nat :=
  let values := bech32_hrp_expand hrp ++ data
  let polymod := bech32_polymod (values ++ [0, 0, 0, 0, 0, 0]) ^^^ c
  (List.range 6).map (fun i => (polymod >>> (5 * (5 - i))) &&& 31)

def BECH32M_CONST : Nat := 0x2bc830a3

/-! ## `convertbits` (`generate-wallet.py`)

The Python accumulates all input bits into `acc`, emitting `tobits`-sized
groups greedily (`while bits >= tobits`), and, when `pad` is set, appends a
final zero-padded group.  The `while` loop is the fuel-carrying `cbWhile`;
fuel = the current bit count dominates its iteration count whenever
`tobits > 0` (with `tobits = 0` the Python loops forever). -/

def cbWhile (tobits maxv acc : Nat) : Nat → Nat → List Nat → Nat × List Nat
  | 0, bits, ret => (bits, ret)
  | fuel + 1, bits, ret =>
    if tobits ≤ bits then
      cbWhile tobits maxv acc fuel (bits - tobits)
        (ret ++ [(acc >>> (bits - tobits)) &&& maxv])
    else (bits, ret)

def convertbits (data : List Nat) (frombits tobits : Nat) (pad : Bool) : List Nat :=
  let maxv := (1 <<< tobits) - 1
  let fin := data.foldl
    (fun (st : Nat × Nat × List Nat) v =>
      let acc := (st.1 <<< frombits) ||| v
      let br := cbWhile tobits maxv acc (st.2.1 + frombits) (st.2.1 + frombits) st.2.2
      (acc, br.1, br.2))
    (0, 0, [])
  if pad then
    (if fin.2.1 ≠ 0 then fin.2.2 ++ [(fin.1 <<< (tobits - fin.2.1)) &&& maxv] else fin.2.2)
  else fin.2.2

/-- The number denoted by a list of `w`-bit groups, most significant first. -/
def chunksVal (w : Nat) (l : List Nat) : Nat := l.foldl (fun a v => a * 2 ^ w + v) 0

/-- The body of the `for value in data` loop of `convertbits`, as a named
function (definitionally equal to the inline lambda). -/
def cbStep (frombits tobits : Nat) (st : Nat × Nat × List Nat) (v : Nat) :
    Nat × Nat × List Nat :=
  ((st.1 <<< frombits) ||| v,
   (cbWhile tobits ((1 <<< tobits) - 1) ((st.1 <<< frombits) ||| v)
      (st.2.1 + frombits) (st.2.1 + frombits) st.2.2).1,
   (cbWhile tobits ((1 <<< tobits) - 1) ((st.1 <<< frombits) ||| v)
      (st.2.1 + frombits) (st.2.1 + frombits) st.2.2).2)

/-! ## secp256k1 scalar signing (`sign-and-broadcast.py`, lines 239–308)

The source's local constants `p`, `n`, `Gx`, `Gy` and its `point_add` /
`scalar_mult` helpers.  Python computes chord/tangent slopes with signed
integers and reduces with `%`; coordinates are `Nat` here, so subtraction
is rewritten congruently as `a + p - b (mod p)` (equal to Python's value
whenever the operands are reduced modulo `p`, as they are on every curve
point the code constructs).  `pow(x, -1, m)` is `modInv` (extended Euclid;
Python raises `ValueError` where it yields `none`, and the scripts never
reach that case on genuine curve inputs).  The `while k` double-and-add
loop is fuelled with `k` itself, which dominates its bit-length iteration
count. -/

def secpP : Nat := 0xFFFFFFFFFFFFFFFFFFFFFFFFFFFFFFFFFFFFFFFFFFFFFFFFFFFFFFFEFFFFFC2F

def secpN : Nat := 0xFFFFFFFFFFFFFFFFFFFFFFFFFFFFFFFEBAAEDCE6AF48A03BBFD25E8CD0364141

def secpGx : Nat := 0x79BE667EF9DCBBAC55A06295CE870B07029BFCDB2DCE28D959F2815B16F81798

def secpGy : Nat := 0x483ADA7726A3C4655DA4FBFC0E1108A8FD17B448A68554199C47D08FFB10D4B8

/-- Extended Euclid: `egcd fuel a b = (x, y, g)` with `x*a + y*b = g` when
the fuel dominates the iteration count (`fuel > a` suffices). -/
def egcd : Nat → Nat → Nat → Int × Int × Nat
  | 0, _, b => (0, 1, b)
  | fuel + 1, a, b =>
    if a = 0 then (0, 1, b)
    else
      let r := egcd fuel (b % a) a
      (r.2.1 - (b / a : Nat) * r.1, r.1, r.2.2)

/-- Python `pow(a, -1, m)`: the modular inverse in `[0, m)`, `none` when `a` is not
invertible modulo `m` (Python raises `ValueError` there). -/
def modInv (a m : Nat) : Option Nat :=
  let r := egcd (a % m + 1) (a % m) m
  if r.2.2 = 1 then some ((r.1 % (m : Int)).toNat) else none

def point_add (p1 p2 : Option (Nat × Nat)) : Option (Nat × Nat) :=
  match p1, p2 with
  | none, _ => p2
  | _, none => p1
  | some (x1, y1), some (x2, y2) =>
    if x1 = x2 ∧ y1 ≠ y2 then none
    else
      let m :=
        if x1 = x2 then
          3 * x1 * x1 * ((modInv (2 * y1) secpP).getD 0) % secpP
        else
          ((y2 + secpP - y1) % secpP) *
            ((modInv ((x2 + secpP - x1) % secpP) secpP).getD 0) % secpP
      let x3 := (m * m + 2 * secpP - (x1 + x2)) % secpP
      let y3 := (m * ((x1 + secpP - x3) % secpP) % secpP + secpP - y1 % secpP) % secpP
      some (x3, y3)

def smLoop : Nat → Option (Nat × Nat) → Option (Nat × Nat) → Nat → Option (Nat × Nat)
  | 0, result, _, _ => result
  | fuel + 1, result, addend, k =>
    if k = 0 then result
    else
      smLoop fuel (if k % 2 = 1 then point_add result addend else result)
        (point_add addend addend) (k / 2)

def scalar_mult (k : Nat) (point : Nat × Nat) : Option (Nat × Nat) :=
  smLoop k none (some point) k

/-- Function `privkey_to_pubkey`: compressed SEC encoding of `privkey·G` (the scripts
call `fastecdsa.keys.get_public_key`; that library raises on the identity
point, modelled as `[]`, unreachable for a key in `[1, n)`). -/
def privkey_to_pubkey (privkey : List Nat) : List Nat :=
  match scalar_mult (beVal privkey) (secpGx, secpGy) with
  | some (x, y) => (if y % 2 = 0 then [0x02] else [0x03]) ++ beBytes 32 x
  | none => []

/-- Error taxonomy of the spec's `ECDSASigner`.  `SigningDegenerate` is the
failure the spec prescribes for a zero nonce; the implementation never
produces it.  The other two name the raising branches of the Python
(`TypeError` on subscripting `None`, `ValueError` from `pow(k, -1, n)`). -/
inductive SignErr where
  | SigningDegenerate : SignErr
  | pointAtInfinity : SignErr
  | notInvertible : SignErr
deriving DecidableEq

/-- Lines 286–297: `R = k·G`, `r = R.x mod n`, `s = k⁻¹(z + r·d) mod n`,
low-S normalization. -/
def ecdsaSignK (k z d : Nat) : Except SignErr (Nat × Nat) :=
  match scalar_mult k (secpGx, secpGy) with
  | none => Except.error SignErr.pointAtInfinity
  | some (x, _) =>
    let r := x % secpN
    match modInv k secpN with
    | none => Except.error SignErr.notInvertible
    | some kinv =>
      let s := kinv * (z + r * d) % secpN
      Except.ok (r, if s > secpN / 2 then secpN - s else s)

/-- Lines 253–256: `k = int(k_bytes) % n; if k == 0: k = 1`. -/
def nonceFromReduced (k0 : Nat) : Nat := if k0 = 0 then 1 else k0

/-- The signing stage as a function of the already-reduced nonce value
`k0 = int(HMAC-SHA256(privkey‖sighash, sighash)) % n`. -/
def signWithReduced (k0 z d : Nat) : Except SignErr (Nat × Nat) :=
  ecdsaSignK (nonceFromReduced k0) z d

def reducedNonce (privkey sighash : List Nat) : Nat :=
  beVal (hmacSha256 (privkey ++ sighash) sighash) % secpN

/-- The full scalar-signing pipeline of `sign_segwit_input`. -/
def signScalars (privkey sighash : List Nat) : Except SignErr (Nat × Nat) :=
  signWithReduced (reducedNonce privkey sighash) (beVal sighash) (beVal privkey)

/-! ## Transaction parsing and BIP143 sighash (`sign-and-broadcast.py`) -/

structure TxIn where
  txid : List Nat
  vout : Nat
  script_sig : List Nat
  sequence : List Nat
deriving DecidableEq

instance : Inhabited TxIn := ⟨⟨[], 0, [], []⟩⟩

structure TxOut where
  value : List Nat
  script_pubkey : List Nat
deriving DecidableEq

/-- The input-parsing loop (lines 143–159); offsets move exactly as in the
source, slices clamp like Python slices, and a varint `IndexError`
propagates as `none`. -/
def parseInputs : Nat → List Nat → Nat → Option (List TxIn × Nat)
  | 0, _, offset => some ([], offset)
  | count + 1, data, offset =>
    let txid := ((data.drop offset).take 32).reverse
    let vout := leVal ((data.drop (offset + 32)).take 4)
    match decode_varint data (offset + 36) with
    | Except.error _ => none
    | Except.ok (script_len, varint_size) =>
      let o2 := offset + 36 + varint_size
      let script_sig := (data.drop o2).take script_len
      let sequence := (data.drop (o2 + script_len)).take 4
      match parseInputs count data (o2 + script_len + 4) with
      | none => none
      | some (rest, fin) => some (⟨txid, vout, script_sig, sequence⟩ :: rest, fin)

/-- The output-parsing loop (lines 168–179). -/
def parseOutputs : Nat → List Nat → Nat → Option (List TxOut × Nat)
  | 0, _, offset => some ([], offset)
  | count + 1, data, offset =>
    let value := (data.drop offset).take 8
    match decode_varint data (offset + 8) with
    | Except.error _ => none
    | Except.ok (script_len, varint_size) =>
      let o2 := offset + 8 + varint_size
      let script_pubkey := (data.drop o2).take script_len
      match parseOutputs count data (o2 + script_len) with
      | none => none
      | some (rest, fin) => some (⟨value, script_pubkey⟩ :: rest, fin)

/-- The witness-skipping loops (lines 182–189). -/
def skipWitnessItems : Nat → List Nat → Nat → Option Nat
  | 0, _, offset => some offset
  | count + 1, data, offset =>
    match decode_varint data offset with
    | Except.error _ => none
    | Except.ok (item_len, varint_size) =>
      skipWitnessItems count data (offset + varint_size + item_len)

def skipWitnesses : Nat → List Nat → Nat → Option Nat
  | 0, _, offset => some offset
  | count + 1, data, offset =>
    match decode_varint data offset with
    | Except.error _ => none
    | Except.ok (num_witness, varint_size) =>
      match skipWitnessItems num_witness data (offset + varint_size) with
      | none => none
      | some o2 => skipWitnesses count data o2

/-- Lines 121–192 of `sign_segwit_input`: parse version, marker/flag,
inputs, outputs, skip witness data, and read the locktime from the last
four bytes of the whole input. -/
def parseTx (tx_bytes : List Nat) :
    Option (List Nat × List TxIn × List TxOut × List Nat) :=
  let version := tx_bytes.take 4
  let has_witness := (tx_bytes.drop 4).take 2 = [0x00, 0x01]
  let offset := if has_witness then 6 else 4
  match decode_varint tx_bytes offset with
  | Except.error _ => none
  | Except.ok (num_inputs, varint_size) =>
    match parseInputs num_inputs tx_bytes (offset + varint_size) with
    | none => none
    | some (inputs, o1) =>
      match decode_varint tx_bytes o1 with
      | Except.error _ => none
      | Except.ok (num_outputs, varint_size2) =>
        match parseOutputs num_outputs tx_bytes (o1 + varint_size2) with
        | none => none
        | some (outputs, o2) =>
          if has_witness then
            match skipWitnesses num_inputs tx_bytes o2 with
            | none => none
            | some _ =>
              some (version, inputs, outputs, tx_bytes.drop (tx_bytes.length - 4))
          else some (version, inputs, outputs, tx_bytes.drop (tx_bytes.length - 4))

/-- Lines 194–233: the BIP143 preimage, appended field by field exactly as
the source does (the three accumulating `for` loops are `foldl`s).  The
source indexes `inputs[input_index]` (an `IndexError` out of range); the
theorems about this definition carry the in-range hypothesis. -/
def bip143_preimage (version : List Nat) (inputs : List TxIn) (outputs : List TxOut)
    (locktime : List Nat) (input_index : Nat) (prev_txid : List Nat)
    (prev_vout prev_value : Nat) (pubkey_hash : List Nat) : List Nat :=
  version ++
  double_sha256
    (inputs.foldl (fun acc inp => acc ++ (inp.txid.reverse ++ leBytes 4 inp.vout)) []) ++
  double_sha256 (inputs.foldl (fun acc inp => acc ++ inp.sequence) []) ++
  (prev_txid.reverse ++ leBytes 4 prev_vout) ++
  ([0x19, 0x76, 0xa9, 0x14] ++ pubkey_hash ++ [0x88, 0xac]) ++
  leBytes 8 prev_value ++
  (inputs.getD input_index default).sequence ++
  double_sha256
    (outputs.foldl
      (fun acc out =>
        acc ++ (out.value ++ encode_varint out.script_pubkey.length ++ out.script_pubkey))
      []) ++
  locktime ++
  [0x01, 0x00, 0x00, 0x00]

/-- Line 236: `sighash = double_sha256(preimage)`. -/
def sighash_code (version : List Nat) (inputs : List TxIn) (outputs : List TxOut)
    (locktime : List Nat) (input_index : Nat) (prev_txid : List Nat)
    (prev_vout prev_value : Nat) (pubkey_hash : List Nat) : List Nat :=
  double_sha256 (bip143_preimage version inputs outputs locktime input_index prev_txid
    prev_vout prev_value pubkey_hash)

/-- Lines 300–304: minimal big-endian DER integer with a leading zero when
the high bit is set.  (Python crashes on `x = 0`, subscripting an empty
byte string; this encodes `0` as an empty payload instead — no claim
reaches that case.) -/
def der_encode_int (x : Nat) : List Nat :=
  let xb := beBytes ((Nat.size x + 7) / 8) x
  let xb2 := if 0x80 ≤ xb.headD 0 then 0x00 :: xb else xb
  0x02 :: xb2.length :: xb2

/-- Line 308: `0x30 <len> r_der s_der` with the SIGHASH_ALL byte appended. -/
def txSignature (r s : Nat) : List Nat :=
  (0x30 :: ((der_encode_int r).length + (der_encode_int s).length) ::
    (der_encode_int r ++ der_encode_int s)) ++ [0x01]

/-- The witness signature element: DER-encode the scalar signature (all
error paths of the scalar stage raise in Python; they are unreachable on
genuine secp256k1 parameters and modelled as `[]`). -/
def witnessSignature (privkey sighash : List Nat) : List Nat :=
  match signScalars privkey sighash with
  | Except.ok (r, s) => txSignature r s
  | Except.error _ => []

/-- Lines 310–345: reassemble the signed transaction — marker/flag, every
scriptSig emptied, outputs re-serialized, a 2-element witness on the signed
input, empty witness byte for every other input, locktime carried over. -/
def rebuildSignedTx (version : List Nat) (inputs : List TxIn) (outputs : List TxOut)
    (locktime : List Nat) (input_index : Nat) (signature pubkey : List Nat) : List Nat :=
  version ++ [0x00, 0x01] ++ encode_varint inputs.length ++
  inputs.foldl
    (fun acc inp => acc ++ (inp.txid.reverse ++ leBytes 4 inp.vout ++ [0x00] ++ inp.sequence))
    [] ++
  encode_varint outputs.length ++
  outputs.foldl
    (fun acc out =>
      acc ++ (out.value ++ encode_varint out.script_pubkey.length ++ out.script_pubkey))
    [] ++
  (List.range inputs.length).foldl
    (fun acc i =>
      acc ++
        (if i = input_index then
          [0x02] ++ encode_varint signature.length ++ signature ++
            encode_varint pubkey.length ++ pubkey
        else [0x00]))
    [] ++
  locktime

/-- Body of `sign_segwit_input` below the WIF decoding: parse, sighash, sign,
rebuild. -/
def sign_segwit_core (tx_bytes : List Nat) (input_index : Nat) (prev_txid : List Nat)
    (prev_vout prev_value : Nat) (privkey : List Nat) : Option (List Nat) :=
  match parseTx tx_bytes with
  | none => none
  | some (version, inputs, outputs, locktime) =>
    let sighash := sighash_code version inputs outputs locktime input_index prev_txid
      prev_vout prev_value (hash160 (privkey_to_pubkey privkey))
    some (rebuildSignedTx version inputs outputs locktime input_index
      (witnessSignature privkey sighash) (privkey_to_pubkey privkey))

/-- Function `sign_segwit_input` (whole function): WIF decode, then the core. -/
def sign_segwit_input (tx_bytes : List Nat) (input_index : Nat) (prev_txid : List Nat)
    (prev_vout prev_value : Nat) (privkey_wif : List Char) : Option (List Nat) :=
  match wif_to_privkey privkey_wif with
  | Except.error _ => none
  | Except.ok privkey =>
    sign_segwit_core tx_bytes input_index prev_txid prev_vout prev_value privkey

/-! ### Specification-side forms of the claims' formulas -/

/-- C1's wording: double-SHA256 of all inputs' wire-order txid+vout in input
order. -/
def c1HashPrevouts (inputs : List TxIn) : List Nat :=
  double_sha256 ((inputs.map (fun inp => inp.txid.reverse ++ leBytes 4 inp.vout)).join)

/-- C1's wording: double-SHA256 of all sequences in input order. -/
def c1HashSequence (inputs : List TxIn) : List Nat :=
  double_sha256 ((inputs.map (fun inp => inp.sequence)).join)

/-- The wire serialization of one output: value(8 LE), varint script length,
script. -/
def serializeOutput (out : TxOut) : List Nat :=
  out.value ++ encode_varint out.script_pubkey.length ++ out.script_pubkey

/-- C1's wording: double-SHA256 of all serialized outputs. -/
def c1HashOutputs (outputs : List TxOut) : List Nat :=
  double_sha256 ((outputs.map serializeOutput).join)

/-- C1's wording: scriptCode is exactly `0x19 76 a9 14 ‖ pubkeyhash ‖ 88 ac`. -/
def c1ScriptCode (pubkey_hash : List Nat) : List Nat :=
  [0x19, 0x76, 0xa9, 0x14] ++ pubkey_hash ++ [0x88, 0xac]

/-- C1's claimed preimage: version(4 LE) ‖ hashPrevouts ‖ hashSequence ‖
outpoint(36) ‖ scriptCode ‖ value(8 LE) ‖ sequence(4) ‖ hashOutputs ‖
locktime(4) ‖ sighashType(4). -/
def c1Preimage (version : List Nat) (inputs : List TxIn) (outputs : List TxOut)
    (locktime : List Nat) (input_index : Nat) (prev_txid : List Nat)
    (prev_vout prev_value : Nat) (pubkey_hash : List Nat) : List Nat :=
  version ++ c1HashPrevouts inputs ++ c1HashSequence inputs ++
  (prev_txid.reverse ++ leBytes 4 prev_vout) ++ c1ScriptCode pubkey_hash ++
  leBytes 8 prev_value ++ (inputs.getD input_index default).sequence ++
  c1HashOutputs outputs ++ locktime ++ [0x01, 0x00, 0x00, 0x00]

/-- C3's claimed ALL|ANYONECANPAY preimage: hashPrevouts over the single
outpoint being signed, hashSequence 32 zero bytes, hashOutputs unchanged,
sighash type `0x81` (little-endian 4 bytes). -/
def acpPreimage (version : List Nat) (inputs : List TxIn) (outputs : List TxOut)
    (locktime : List Nat) (input_index : Nat) (prev_txid : List Nat)
    (prev_vout prev_value : Nat) (pubkey_hash : List Nat) : List Nat :=
  version ++ double_sha256 (prev_txid.reverse ++ leBytes 4 prev_vout) ++
  List.replicate 32 0 ++ (prev_txid.reverse ++ leBytes 4 prev_vout) ++
  c1ScriptCode pubkey_hash ++ leBytes 8 prev_value ++
  (inputs.getD input_index default).sequence ++ c1HashOutputs outputs ++ locktime ++
  [0x81, 0x00, 0x00, 0x00]

/-- Spec 4.4 wire form of one input: reversed txid, vout, varint-length
scriptSig, scriptSig, sequence. -/
def serializeInput (inp : TxIn) : List Nat :=
  inp.txid.reverse ++ leBytes 4 inp.vout ++ encode_varint inp.script_sig.length ++
  inp.script_sig ++ inp.sequence

/-- Spec 4.4 witness section for one input: varint element count, then each
element varint-length-prefixed. -/
def serializeWitnessStack (stack : List (List Nat)) : List Nat :=
  encode_varint stack.length ++ (stack.map (fun e => encode_varint e.length ++ e)).join

/-- Spec 4.4 full segwit serialization: version, marker+flag, inputs,
outputs, one witness stack per input, locktime. -/
def serializeSegwitTx (version : List Nat) (inputs : List TxIn) (outputs : List TxOut)
    (witStacks : List (List (List Nat))) (locktime : List Nat) : List Nat :=
  version ++ [0x00, 0x01] ++ encode_varint inputs.length ++
  (inputs.map (fun i => serializeInput i)).join ++
  encode_varint outputs.length ++ (outputs.map (fun o => serializeOutput o)).join ++
  (witStacks.map (fun s => serializeWitnessStack s)).join ++ locktime

/-! ## Reveal-transaction builder (`build_reveal_tx.py`)

`build_transaction` with the module-level globals (`OUTPUTS`,
`COMMIT_TXID`, `COMMIT_VALUE`, `COMMIT_WITNESS`) and the external
`address_to_scriptpubkey` lookup (a `bitcoin-cli` call) passed as
parameters.  Txids are carried in display byte order and reversed for the
wire, as `reverse_txid` does. -/

structure RevealOutput where
  address : String
  value : Nat
deriving DecidableEq

/-- Global `TOTAL_OUTPUTS = sum(o["value"] for o in OUTPUTS)`. -/
def totalOutputs (outputs : List RevealOutput) : Nat :=
  (outputs.map (fun o => o.value)).sum

inductive BuildErr where
  | insufficientFunds : Nat → Nat → BuildErr
deriving DecidableEq

/-- The serialized reveal transaction (lines 83–128), built only after the
balance check passes. -/
def reveal_tx_body (outputs : List RevealOutput) (commit_txid : List Nat)
    (commit_witness : List (List Nat)) (addrScript : String → List Nat)
    (funding_txid : List Nat) (funding_vout : Nat) (funding_witness : List Nat) :
    List Nat :=
  leBytes 4 2 ++ [0x00, 0x01] ++ encode_varint 2 ++
  funding_txid.reverse ++ leBytes 4 funding_vout ++ [0x00] ++ [0xff, 0xff, 0xff, 0xff] ++
  commit_txid.reverse ++ leBytes 4 0 ++ [0x00] ++ [0xff, 0xff, 0xff, 0xff] ++
  encode_varint outputs.length ++
  (outputs.map (fun o =>
    leBytes 8 o.value ++ encode_varint (addrScript o.address).length ++
      addrScript o.address)).join ++
  funding_witness ++
  encode_varint 3 ++
  (commit_witness.map (fun e => encode_varint e.length ++ e)).join ++
  leBytes 4 0

/-- Lines 78–81 then 83–128: `total_in = funding_value + COMMIT_VALUE`; raise
`Insufficient funds: {total_in} < {TOTAL_OUTPUTS}` when short, otherwise
serialize. -/
def build_transaction (outputs : List RevealOutput) (commit_txid : List Nat)
    (commit_value : Nat) (commit_witness : List (List Nat))
    (addrScript : String → List Nat) (funding_txid : List Nat)
    (funding_vout funding_value : Nat) (funding_witness : List Nat) :
    Except BuildErr (List Nat) :=
  if funding_value + commit_value < totalOutputs outputs then
    Except.error (BuildErr.insufficientFunds (funding_value + commit_value)
      (totalOutputs outputs))
  else
    Except.ok (reveal_tx_body outputs commit_txid commit_witness addrScript funding_txid
      funding_vout funding_witness)

/-! ## Theorems -/

@[simp] theorem length_beBytes (k n : Nat) : (beBytes k n).length = k := by
  induction k generalizing n with
  | zero => rfl
  | succ k ih => simp [beBytes, ih]

@[simp] theorem length_leBytes (k n : Nat) : (leBytes k n).length = k := by
  induction k generalizing n with
  | zero => rfl
  | succ k ih => simp [leBytes, ih]

theorem beBytes_lt (k n : Nat) : ∀ b ∈ beBytes k n, b < 256 := by
  induction k generalizing n with
  | zero => simp [beBytes]
  | succ k ih =>
    intro b hb
    simp only [beBytes, List.mem_append, List.mem_singleton] at hb
    rcases hb with h | h
    · exact ih _ _ h
    · omega

theorem beVal_append_single (l : List Nat) (b : Nat) :
    beVal (l ++ [b]) = beVal l * 256 + b := by
  simp [beVal, List.foldl_append]

theorem beVal_lt (l : List Nat) (h : ∀ b ∈ l, b < 256) :
    beVal l < 256 ^ l.length := by
  induction l using List.reverseRecOn with
  | nil => simp [beVal]
  | append_singleton l b ih =>
    have hb : b < 256 := h b (by simp)
    have hl := ih (fun x hx => h x (by simp [hx]))
    rw [beVal_append_single]
    calc beVal l * 256 + b < (beVal l + 1) * 256 := by omega
    _ ≤ 256 ^ l.length * 256 := by
        have : beVal l + 1 ≤ 256 ^ l.length := hl
        exact Nat.mul_le_mul_right 256 this
    _ = 256 ^ (l ++ [b]).length := by
        simp [pow_succ]

theorem beVal_beBytes (k n : Nat) (h : n < 256 ^ k) : beVal (beBytes k n) = n := by
  induction k generalizing n with
  | zero => simp [beBytes, beVal]; omega
  | succ k ih =>
    rw [beBytes, beVal_append_single, ih (n / 256) (by
      rw [pow_succ] at h
      exact Nat.div_lt_of_lt_mul (by omega))]
    omega

theorem beBytes_beVal (l : List Nat) (h : ∀ b ∈ l, b < 256) :
    beBytes l.length (beVal l) = l := by
  induction l using List.reverseRecOn with
  | nil => rfl
  | append_singleton l b ih =>
    have hb : b < 256 := h b (by simp)
    rw [beVal_append_single]
    have hlen : (l ++ [b]).length = l.length + 1 := by simp
    rw [hlen, beBytes]
    have hdiv : (beVal l * 256 + b) / 256 = beVal l := by omega
    have hmod : (beVal l * 256 + b) % 256 = b := by omega
    rw [hdiv, hmod, ih (fun x hx => h x (by simp [hx]))]

/-- C7 (counterexample): on `[0xfd]` at offset 0 only 0 bytes remain after the
prefix byte although the 0xfd prefix demands 2, yet `decode_varint` does not
fail with `InvalidEncoding`: it returns the value 0 with a claimed consumption
of 3 bytes. -/
theorem c7_truncated_varint_returns_value :
    ([0xfd] : List Nat).length - (0 + 1) < 2 ∧
    decode_varint [0xfd] 0 = Except.ok (0, 3) ∧
    decode_varint [0xfd] 0 ≠ Except.error VarintErr.invalidEncoding := by
  refine ⟨by decide, rfl, by simp [decode_varint, leVal]⟩

/-- C7 (amended): `decode_varint` never fails with `InvalidEncoding`.  When the
offset is in range it always returns a value: the prefix byte itself with
consumption 1 when it is below 0xfd, and otherwise the little-endian value of
the *at most* 2/4/8 following bytes (zero-extended when fewer remain) with the
nominal consumption 3/5/9.  With sufficient remaining bytes this is the exact
little-endian value of the demanded bytes.  The only failure is an index error
when the offset itself is out of range. -/
theorem c7_varint_decode_total :
    (∀ (data : List Nat) (offset : Nat),
        decode_varint data offset ≠ Except.error VarintErr.invalidEncoding) ∧
    (∀ (data : List Nat) (offset : Nat), offset < data.length →
      (data.getD offset 0 < 0xfd →
        decode_varint data offset = Except.ok (data.getD offset 0, 1)) ∧
      (data.getD offset 0 = 0xfd →
        decode_varint data offset = Except.ok (leVal ((data.drop (offset + 1)).take 2), 3)) ∧
      (data.getD offset 0 = 0xfe →
        decode_varint data offset = Except.ok (leVal ((data.drop (offset + 1)).take 4), 5)) ∧
      (0xfe < data.getD offset 0 →
        decode_varint data offset = Except.ok (leVal ((data.drop (offset + 1)).take 8), 9))) ∧
    (∀ (data : List Nat) (offset : Nat), data.length ≤ offset →
        decode_varint data offset = Except.error VarintErr.indexOutOfRange) := by
  refine ⟨fun data offset => ?_, fun data offset h => ?_, fun data offset h => ?_⟩
  · simp only [decode_varint]
    split_ifs <;> simp
  · refine ⟨fun hlt => ?_, fun heq => ?_, fun heq => ?_, fun hgt => ?_⟩ <;>
      (simp only [decode_varint]; split_ifs <;> first | rfl | (exfalso; omega))
  · simp only [decode_varint]
    split_ifs <;> first | rfl | (exfalso; omega)

/-- C7 (witness for `c7_varint_decode_total`): concrete instances — an
in-range 0xfd decode and an out-of-range offset. -/
theorem c7_varint_decode_total_witness :
    decode_varint [0xfd, 7, 1] 0 = Except.ok (leVal (([0xfd, 7, 1].drop (0 + 1)).take 2), 3) ∧
    decode_varint ([] : List Nat) 0 = Except.error VarintErr.indexOutOfRange := by
  refine ⟨(c7_varint_decode_total.2.1 [0xfd, 7, 1] 0 (by decide)).2.1 (by decide),
          c7_varint_decode_total.2.2 [] 0 (by decide)⟩

/-- FIPS 180-4 test vector: SHA-256 of the empty message. -/
example : sha256 [] =
    [227, 176, 196, 66, 152, 252, 28, 20, 154, 251, 244, 200, 153, 111, 185, 36,
     39, 174, 65, 228, 100, 155, 147, 76, 164, 149, 153, 27, 120, 82, 184, 85] := by
  decide

/-- FIPS 180-4 test vector: SHA-256 of `"abc"`. -/
example : sha256 [97, 98, 99] =
    [186, 120, 22, 191, 143, 1, 207, 234, 65, 65, 64, 222, 93, 174, 34, 35,
     176, 3, 97, 163, 150, 23, 122, 156, 180, 16, 255, 97, 242, 0, 21, 173] := by
  decide

theorem length_sha256 (msg : List Nat) : (sha256 msg).length = 32 := by
  simp [sha256]

theorem sha256_lt (msg : List Nat) : ∀ b ∈ sha256 msg, b < 256 := by
  intro b hb
  simp only [sha256, List.mem_append] at hb
  rcases hb with ((((((h | h) | h) | h) | h) | h) | h) | h <;> exact beBytes_lt _ _ _ h

set_option maxRecDepth 4000 in
/-- RIPEMD-160 test vector: the empty message. -/
example : ripemd160 [] =
    [156, 17, 133, 165, 197, 233, 252, 84, 97, 40, 8, 151, 126, 232, 245, 72,
     178, 37, 141, 49] := by
  decide

set_option maxRecDepth 4000 in
/-- RIPEMD-160 test vector: `"abc"`. -/
example : ripemd160 [97, 98, 99] =
    [142, 178, 8, 247, 224, 93, 152, 122, 155, 4, 74, 142, 152, 198, 176, 135,
     241, 90, 11, 252] := by
  decide

theorem length_hash160 (data : List Nat) : (hash160 data).length = 20 := by
  simp [hash160, ripemd160]

theorem b58loop_eq_digits :
    ∀ (fuel num : Nat) (acc : List Char), num ≤ fuel →
      b58loop fuel num acc = digits58 num ++ acc := by
  intro fuel
  induction fuel with
  | zero =>
    intro num acc h
    have : num = 0 := by omega
    subst this
    rw [digits58]
    simp [b58loop]
  | succ f ih =>
    intro num acc h
    by_cases h0 : num = 0
    · subst h0
      rw [digits58]
      simp [b58loop]
    · have hd : num / 58 < num := Nat.div_lt_self (Nat.pos_of_ne_zero h0) (by norm_num)
      rw [b58loop, if_neg h0, ih (num / 58) _ (by omega)]
      conv_rhs => rw [digits58, dif_neg h0]
      simp

theorem b58Fold_append_single (a : Nat) (l : List Char) (c : Char) :
    b58Fold a (l ++ [c]) = b58Fold a l * 58 + (ALPHABET.indexOf? c).getD 0 := by
  simp [b58Fold, List.foldl_append]

theorem alphabet_indexOf_getD : ∀ d, d < 58 → ALPHABET.indexOf? (ALPHABET.getD d '1') = some d := by
  decide

theorem b58Fold_digits :
    ∀ num a, b58Fold a (digits58 num) = a * 58 ^ (digits58 num).length + num := by
  intro num
  induction num using Nat.strong_induction_on with
  | _ num ih =>
    intro a
    by_cases h0 : num = 0
    · subst h0
      rw [digits58]
      simp [b58Fold]
    · have hd : num / 58 < num := Nat.div_lt_self (Nat.pos_of_ne_zero h0) (by norm_num)
      rw [digits58, dif_neg h0, b58Fold_append_single, ih (num / 58) hd a,
        alphabet_indexOf_getD (num % 58) (by omega)]
      simp only [Option.getD_some, List.length_append, List.length_singleton]
      have h1 : num / 58 * 58 + num % 58 = num := by omega
      calc (a * 58 ^ (digits58 (num / 58)).length + num / 58) * 58 + num % 58
          = a * (58 ^ (digits58 (num / 58)).length * 58) + (num / 58 * 58 + num % 58) := by ring
        _ = a * 58 ^ ((digits58 (num / 58)).length + 1) + num := by rw [h1, pow_succ]

theorem digits58_mem_alphabet :
    ∀ num c, c ∈ digits58 num → c ∈ ALPHABET := by
  intro num
  induction num using Nat.strong_induction_on with
  | _ num ih =>
    intro c hc
    by_cases h0 : num = 0
    · subst h0; rw [digits58] at hc; simp at hc
    · have hd : num / 58 < num := Nat.div_lt_self (Nat.pos_of_ne_zero h0) (by norm_num)
      rw [digits58, dif_neg h0] at hc
      rcases List.mem_append.1 hc with h | h
      · exact ih _ hd _ h
      · have hm : c = ALPHABET.getD (num % 58) '1' := by simpa using h
        subst hm
        have : ∀ d, d < 58 → ALPHABET.getD d '1' ∈ ALPHABET := by decide
        exact this _ (by omega)

theorem digits58_takeWhile_one :
    ∀ num, num ≠ 0 → (digits58 num).takeWhile (fun c => c = '1') = [] := by
  intro num
  induction num using Nat.strong_induction_on with
  | _ num ih =>
    intro h0
    have hd : num / 58 < num := Nat.div_lt_self (Nat.pos_of_ne_zero h0) (by norm_num)
    rw [digits58, dif_neg h0]
    by_cases hq : num / 58 = 0
    · have h58 : digits58 (num / 58) = [] := by rw [hq, digits58]; simp
      have hne : ∀ d, d < 58 → 0 < d → ¬(ALPHABET.getD d '1' = '1') := by decide
      have hnum : num % 58 = num := Nat.mod_eq_of_lt (by omega)
      have hc : ¬(ALPHABET.getD (num % 58) '1' = '1') := by
        rw [hnum]
        exact hne num (by omega) (Nat.pos_of_ne_zero h0)
      rw [h58, List.nil_append, List.takeWhile_cons, if_neg (by simpa using hc)]
    · rcases hl : digits58 (num / 58) with _ | ⟨x, xs⟩
      · exact absurd hl (by rw [digits58, dif_neg hq]; simp)
      · have htw := ih _ hd hq
        rw [hl] at htw
        by_cases hx : x = '1'
        · subst hx
          simp [List.takeWhile_cons] at htw
        · simp [List.takeWhile_cons, hx]

theorem base58CharsToNum_valid :
    ∀ (w : List Char) (a : Nat), (∀ c ∈ w, c ∈ ALPHABET) →
      w.foldl (fun acc c => acc.bind fun n => (ALPHABET.indexOf? c).map fun i => n * 58 + i)
        (some a) = some (b58Fold a w) := by
  intro w
  induction w with
  | nil => intro a _; simp [b58Fold]
  | cons c w ih =>
    intro a h
    have hc : c ∈ ALPHABET := h c (by simp)
    have hsome : (ALPHABET.indexOf? c).isSome := by
      rw [Option.isSome_iff_ne_none]
      intro hn
      have := List.indexOf?_eq_none_iff.1 hn c hc
      simp at this
    obtain ⟨i, hi⟩ := Option.isSome_iff_exists.1 hsome
    simp only [List.foldl_cons, hi]
    have hstep : ((some a).bind fun n => (Option.map (fun j => n * 58 + j) (some i))) =
        some (a * 58 + i) := rfl
    rw [hstep, ih (a * 58 + i) (fun x hx => h x (by simp [hx]))]
    simp [b58Fold, hi]

theorem base58CharsToNum_encode (data : List Nat) (hhead : data.headD 0 ≠ 0) :
    base58CharsToNum (base58_encode data) = some (beVal data) := by
  have hlz : leadingZeroBytes data = 0 := by
    cases data with
    | nil => simp at hhead
    | cons b l =>
      simp only [List.headD_cons] at hhead
      simp [leadingZeroBytes, List.takeWhile_cons, hhead]
  have hloop := b58loop_eq_digits (beVal data) (beVal data) [] le_rfl
  have henc : base58_encode data = digits58 (beVal data) := by
    rw [base58_encode, hlz, hloop]
    simp
  rw [henc, base58CharsToNum,
    base58CharsToNum_valid _ 0 (fun c hc => digits58_mem_alphabet _ c hc),
    b58Fold_digits (beVal data) 0]
  simp

theorem beVal_foldl (l : List Nat) :
    ∀ a, l.foldl (fun x y => x * 256 + y) a = a * 256 ^ l.length + beVal l := by
  induction l with
  | nil => intro a; simp [beVal]
  | cons y l ih =>
    intro a
    have hy : beVal (y :: l) = y * 256 ^ l.length + beVal l := by
      have h0 : beVal (y :: l) = l.foldl (fun x y => x * 256 + y) y := by simp [beVal]
      rw [h0, ih y]
    simp only [List.foldl_cons, List.length_cons, hy]
    rw [ih (a * 256 + y)]
    ring

theorem beVal_cons (b : Nat) (l : List Nat) :
    beVal (b :: l) = b * 256 ^ l.length + beVal l := by
  have h0 : beVal (b :: l) = l.foldl (fun x y => x * 256 + y) b := by simp [beVal]
  rw [h0, beVal_foldl l b]

theorem base58_encode_eq_digits (data : List Nat) (hhead : data.headD 0 ≠ 0) :
    base58_encode data = digits58 (beVal data) := by
  have hlz : leadingZeroBytes data = 0 := by
    cases data with
    | nil => simp at hhead
    | cons b l =>
      simp only [List.headD_cons] at hhead
      simp [leadingZeroBytes, List.takeWhile_cons, hhead]
  rw [base58_encode, hlz, b58loop_eq_digits (beVal data) (beVal data) [] le_rfl]
  simp

theorem wifAllBytes_encode (data : List Nat) (hhead : data.headD 0 ≠ 0)
    (hlen : data.length = 38) (hbytes : ∀ b ∈ data, b < 256) :
    wifAllBytes (base58_encode data) (beVal data) = data := by
  obtain ⟨b, l, rfl⟩ : ∃ b l, data = b :: l := by
    cases data with
    | nil => simp at hhead
    | cons b l => exact ⟨b, l, rfl⟩
  simp only [List.headD_cons] at hhead
  have hnum : beVal (b :: l) ≠ 0 := by
    have := beVal_cons b l
    have hp : 0 < 256 ^ l.length := Nat.pos_pow_of_pos _ (by norm_num)
    intro h0
    rw [h0] at this
    have hb : 0 < b := Nat.pos_of_ne_zero hhead
    nlinarith [this.symm]
  rw [wifAllBytes, base58_encode_eq_digits _ (by simpa using hhead),
    digits58_takeWhile_one _ hnum]
  have hbb : beBytes 38 (beVal (b :: l)) = b :: l := by
    rw [← hlen]
    exact beBytes_beVal _ hbytes
  rw [hbb]
  simp [List.dropWhile_cons, hhead]

/-- Dispatch lemma: `wif_to_privkey` once the Base58 accumulation is known. -/
theorem wif_to_privkey_some {w : List Char} {num : Nat}
    (h : base58CharsToNum w = some num) :
    wif_to_privkey w =
      (if num < 256 ^ 38 then
        (if (double_sha256 (wifPayload (wifAllBytes w num))).take 4 ≠
            wifChecksumBytes (wifAllBytes w num) then
          Except.error WifErr.badChecksum
        else
          Except.ok (((wifPayload (wifAllBytes w num)).drop 1).take 32))
      else Except.error WifErr.overflow) := by
  unfold wif_to_privkey
  rw [h]

/-- C6: Base58Check decoding of the Base58Check WIF encoding of a 32-byte
private key recovers the key exactly
(`wif_to_privkey (generate_wif p) = ok p`), and decoding fails with the
checksum error whenever the trailing 4 bytes of the decoded byte string do
not equal the first 4 bytes of the double-SHA256 of the preceding payload. -/
theorem c6_wif_base58check :
    (∀ (p : List Nat) (testnet : Bool), p.length = 32 → (∀ b ∈ p, b < 256) →
      wif_to_privkey (generate_wif p testnet) = Except.ok p) ∧
    (∀ (w : List Char) (num : Nat),
      base58CharsToNum w = some num → num < 256 ^ 38 →
      (double_sha256 (wifPayload (wifAllBytes w num))).take 4 ≠
        wifChecksumBytes (wifAllBytes w num) →
      wif_to_privkey w = Except.error WifErr.badChecksum) := by
  constructor
  · intro p t hlen hbytes
    simp only [generate_wif]
    set vb := (if t = true then (0xef : Nat) else 0x80) with hvb
    have hvb_pos : vb ≠ 0 ∧ vb < 256 := by cases t <;> simp [hvb]
    set E := vb :: p ++ [0x01] with hE
    set D := E ++ (sha256 (sha256 E)).take 4 with hD
    have hElen : E.length = 34 := by simp [hE, hlen]
    have hcslen : ((sha256 (sha256 E)).take 4).length = 4 := by
      simp [List.length_take, length_sha256]
    have hDlen : D.length = 38 := by
      rw [hD, List.length_append, hElen, hcslen]
    have hDbytes : ∀ b ∈ D, b < 256 := by
      intro b hb
      rw [hD] at hb
      rcases List.mem_append.1 hb with h | h
      · rw [hE] at h
        rcases List.mem_cons.1 h with h | h
        · exact h ▸ hvb_pos.2
        · rcases List.mem_append.1 h with h | h
          · exact hbytes b h
          · simp at h; omega
      · exact sha256_lt _ b (List.take_subset _ _ h)
    have hDhead : D.headD 0 ≠ 0 := by
      rw [hD, hE]
      simpa using hvb_pos.1
    have hdec := base58CharsToNum_encode D hDhead
    have hnumlt : beVal D < 256 ^ 38 := hDlen ▸ beVal_lt D hDbytes
    have hall := wifAllBytes_encode D hDhead hDlen hDbytes
    rw [wif_to_privkey_some hdec, if_pos hnumlt]
    rw [hall]
    have hpay : wifPayload D = E := by
      rw [wifPayload, hDlen, hD]
      exact List.take_left' hElen
    have hck : wifChecksumBytes D = (sha256 (sha256 E)).take 4 := by
      rw [wifChecksumBytes, hDlen, hD]
      exact List.drop_left' hElen
    have hcond : ¬((double_sha256 (wifPayload D)).take 4 ≠ wifChecksumBytes D) := by
      rw [hpay, hck]
      exact fun hne => hne rfl
    rw [if_neg hcond, hpay, hE]
    show Except.ok ((p ++ [0x01]).take 32) = Except.ok p
    rw [List.take_left' hlen]
  · intro w num h1 h2 h3
    rw [wif_to_privkey_some h1, if_pos h2, if_pos h3]

set_option maxRecDepth 100000 in
/-- C6 (witness for `c6_wif_base58check`): the key `[0, 1, …, 31]`
round-trips; the string `"2"` (which decodes to a byte string whose stored
checksum does not match) is rejected with the checksum error. -/
theorem c6_wif_base58check_witness :
    wif_to_privkey (generate_wif (List.range 32) true) = Except.ok (List.range 32) ∧
    wif_to_privkey ['2'] = Except.error WifErr.badChecksum :=
  ⟨c6_wif_base58check.1 (List.range 32) true (by decide) (by decide),
   c6_wif_base58check.2 ['2'] 1 (by decide) (by decide) (by decide)⟩

theorem bech32GEN_getD_lt : ∀ i, bech32GEN.getD i 0 < 2 ^ 30 := by
  intro i
  rcases Nat.lt_or_ge i 5 with h | h
  · interval_cases i <;> decide
  · rw [List.getD_eq_default _ _ (by simpa [bech32GEN] using h)]
    norm_num

theorem bech32_polymod_lt (values : List Nat) (hv : ∀ v ∈ values, v < 2 ^ 30) :
    bech32_polymod values < 2 ^ 30 := by
  rw [bech32_polymod]
  have main : ∀ (vs : List Nat) (chk : Nat), (∀ v ∈ vs, v < 2 ^ 30) → chk < 2 ^ 30 →
      vs.foldl
        (fun chk v =>
          let b := chk >>> 25
          (List.range 5).foldl
            (fun c i => if (b >>> i) &&& 1 = 1 then c ^^^ bech32GEN.getD i 0 else c)
            (((chk &&& 0x1ffffff) <<< 5) ^^^ v))
        chk < 2 ^ 30 := by
    intro vs
    induction vs with
    | nil => intro chk _ h; simpa
    | cons v vs ih =>
      intro chk hv hchk
      simp only [List.foldl_cons]
      refine ih _ (fun x hx => hv x (by simp [hx])) ?_
      have hbase : ((chk &&& 0x1ffffff) <<< 5) ^^^ v < 2 ^ 30 := by
        refine Nat.xor_lt_two_pow ?_ (hv v (by simp))
        have h1 : chk &&& 0x1ffffff < 2 ^ 25 := by
          have := Nat.and_le_right (n := chk) (m := 0x1ffffff)
          omega
        calc (chk &&& 0x1ffffff) <<< 5 = (chk &&& 0x1ffffff) * 2 ^ 5 := Nat.shiftLeft_eq _ _
          _ < 2 ^ 25 * 2 ^ 5 := by omega
          _ = 2 ^ 30 := by norm_num
      have hinner : ∀ (l : List Nat) (c : Nat), c < 2 ^ 30 →
          l.foldl
            (fun c i => if ((chk >>> 25) >>> i) &&& 1 = 1 then c ^^^ bech32GEN.getD i 0 else c)
            c < 2 ^ 30 := by
        intro l
        induction l with
        | nil => intro c h; simpa
        | cons i l ihl =>
          intro c h
          simp only [List.foldl_cons]
          refine ihl _ ?_
          split
          · exact Nat.xor_lt_two_pow h (bech32GEN_getD_lt i)
          · exact h
      exact hinner _ _ hbase
  exact main values 1 hv (by norm_num)

theorem bech32_groups_inj {x y : Nat} (hx : x < 2 ^ 30) (hy : y < 2 ^ 30)
    (h : (List.range 6).map (fun i => (x >>> (5 * (5 - i))) &&& 31) =
         (List.range 6).map (fun i => (y >>> (5 * (5 - i))) &&& 31)) : x = y := by
  have h31 : ∀ z : Nat, z &&& 31 = z % 32 := fun z => by
    simpa using Nat.and_pow_two_sub_one_eq_mod z 5
  have hr : List.range 6 = [0, 1, 2, 3, 4, 5] := rfl
  rw [hr] at h
  simp only [List.map_cons, List.map_nil, List.cons.injEq, and_true] at h
  obtain ⟨h0, h1, h2, h3, h4, h5⟩ := h
  rw [h31, h31, Nat.shiftRight_eq_div_pow, Nat.shiftRight_eq_div_pow] at h0 h1 h2 h3 h4 h5
  norm_num at h0 h1 h2 h3 h4 h5
  omega

/-- C8 (counterexample): for hrp `"tb"` and a data part starting with witness
version 1, the encoder does *not* switch to the bech32m constant: its checksum
differs from the bech32m one, because `bech32_create_checksum` hard-codes the
XOR constant 1 and takes no witness version input at all. -/
theorem c8_bech32m_constant_not_selected :
    bech32_create_checksum [116, 98] [1] ≠
      bech32ChecksumWithConst BECH32M_CONST [116, 98] [1] := by
  decide

/-- C8 (amended): the encoder applies the XOR constant 1 (the bech32
constant) to every input, independent of the witness version carried in the
data part; consequently, for any hrp (char codes < 1024) and any 5-bit data
part, its output always differs from the bech32m checksum. -/
theorem c8_checksum_constant_fixed :
    ∀ (hrp data : List Nat),
      bech32_create_checksum hrp data = bech32ChecksumWithConst 1 hrp data ∧
      ((∀ c ∈ hrp, c < 1024) → (∀ v ∈ data, v < 32) →
        bech32_create_checksum hrp data ≠ bech32ChecksumWithConst BECH32M_CONST hrp data) := by
  intro hrp data
  refine ⟨rfl, fun hh hd heq => ?_⟩
  have hvals : ∀ v ∈ bech32_hrp_expand hrp ++ data ++ [0, 0, 0, 0, 0, 0], v < 2 ^ 30 := by
    intro v hv
    rcases List.mem_append.1 hv with hv | hv
    · rcases List.mem_append.1 hv with hv | hv
      · rw [bech32_hrp_expand] at hv
        rcases List.mem_append.1 hv with hv | hv
        · rcases List.mem_append.1 hv with hv | hv
          · obtain ⟨c, hc, rfl⟩ := List.mem_map.1 hv
            have := hh c hc
            have h5 : c >>> 5 = c / 2 ^ 5 := Nat.shiftRight_eq_div_pow c 5
            omega
          · simp at hv
            omega
        · obtain ⟨c, _, rfl⟩ := List.mem_map.1 hv
          have := Nat.and_le_right (n := c) (m := 31)
          omega
      · have := hd v hv
        omega
    · simp at hv
      omega
  simp only [bech32_create_checksum, bech32ChecksumWithConst, List.append_assoc] at heq
  rw [List.append_assoc] at hvals
  have hpm := bech32_polymod_lt _ hvals
  have h1 : bech32_polymod (bech32_hrp_expand hrp ++ (data ++ [0, 0, 0, 0, 0, 0])) ^^^ 1 <
      2 ^ 30 := Nat.xor_lt_two_pow hpm (by norm_num)
  have h2 : bech32_polymod (bech32_hrp_expand hrp ++ (data ++ [0, 0, 0, 0, 0, 0])) ^^^
      BECH32M_CONST < 2 ^ 30 := Nat.xor_lt_two_pow hpm (by norm_num [BECH32M_CONST])
  have heq2 := bech32_groups_inj h1 h2 heq
  have : (1 : Nat) = BECH32M_CONST := Nat.xor_right_inj.1 heq2
  simp [BECH32M_CONST] at this

/-- C8 (witness for `c8_checksum_constant_fixed`): the concrete `"tb"`,
version-0 instance. -/
theorem c8_checksum_constant_fixed_witness :
    bech32_create_checksum [116, 98] [0] = bech32ChecksumWithConst 1 [116, 98] [0] ∧
    bech32_create_checksum [116, 98] [0] ≠ bech32ChecksumWithConst BECH32M_CONST [116, 98] [0] :=
  ⟨(c8_checksum_constant_fixed [116, 98] [0]).1,
   (c8_checksum_constant_fixed [116, 98] [0]).2 (by decide) (by decide)⟩

@[simp] theorem chunksVal_nil (w : Nat) : chunksVal w [] = 0 := rfl

theorem chunksVal_foldl (w : Nat) (l : List Nat) :
    ∀ a, l.foldl (fun a v => a * 2 ^ w + v) a = a * 2 ^ (w * l.length) + chunksVal w l := by
  induction l with
  | nil => intro a; simp [chunksVal]
  | cons v l ih =>
    intro a
    have hv : chunksVal w (v :: l) = v * 2 ^ (w * l.length) + chunksVal w l := by
      have h0 : chunksVal w (v :: l) = l.foldl (fun a v => a * 2 ^ w + v) v := by
        simp [chunksVal]
      rw [h0, ih v]
    simp only [List.foldl_cons, List.length_cons, hv]
    rw [ih (a * 2 ^ w + v), Nat.mul_succ, pow_add]
    ring

theorem chunksVal_append_single (w : Nat) (l : List Nat) (v : Nat) :
    chunksVal w (l ++ [v]) = chunksVal w l * 2 ^ w + v := by
  simp [chunksVal, List.foldl_append]

theorem chunksVal_lt (w : Nat) (l : List Nat) (h : ∀ v ∈ l, v < 2 ^ w) :
    chunksVal w l < 2 ^ (w * l.length) := by
  induction l using List.reverseRecOn with
  | nil => simp [chunksVal]
  | append_singleton l v ih =>
    have hv : v < 2 ^ w := h v (by simp)
    have hl := ih (fun x hx => h x (by simp [hx]))
    rw [chunksVal_append_single]
    calc chunksVal w l * 2 ^ w + v < (chunksVal w l + 1) * 2 ^ w := by
          have : 0 < 2 ^ w := Nat.pos_pow_of_pos _ (by norm_num)
          nlinarith
    _ ≤ 2 ^ (w * l.length) * 2 ^ w := Nat.mul_le_mul_right _ hl
    _ = 2 ^ (w * (l ++ [v]).length) := by
          rw [← pow_add]
          simp [Nat.mul_succ]

theorem chunksVal_inj (w : Nat) :
    ∀ (l m : List Nat), l.length = m.length → (∀ v ∈ l, v < 2 ^ w) → (∀ v ∈ m, v < 2 ^ w) →
      chunksVal w l = chunksVal w m → l = m := by
  intro l
  induction l using List.reverseRecOn with
  | nil =>
    intro m hlen _ _ _
    cases m using List.reverseRecOn with
    | nil => rfl
    | append_singleton m v => simp at hlen
  | append_singleton l x ih =>
    intro m hlen hl hm hval
    cases m using List.reverseRecOn with
    | nil => simp at hlen
    | append_singleton m y =>
      simp only [List.length_append, List.length_singleton] at hlen
      rw [chunksVal_append_single, chunksVal_append_single] at hval
      have hx : x < 2 ^ w := hl x (by simp)
      have hy : y < 2 ^ w := hm y (by simp)
      have hxy : x = y := by
        have h1 : (chunksVal w l * 2 ^ w + x) % 2 ^ w = x := by
          rw [Nat.add_comm, Nat.add_mul_mod_self_right, Nat.mod_eq_of_lt hx]
        have h2 : (chunksVal w m * 2 ^ w + y) % 2 ^ w = y := by
          rw [Nat.add_comm, Nat.add_mul_mod_self_right, Nat.mod_eq_of_lt hy]
        rw [hval, h2] at h1
        exact h1.symm
      have hlm : chunksVal w l = chunksVal w m := by
        have hpos : 0 < 2 ^ w := Nat.pos_pow_of_pos _ (by norm_num)
        have : chunksVal w l * 2 ^ w = chunksVal w m * 2 ^ w := by omega
        exact Nat.eq_of_mul_eq_mul_right hpos this
      rw [ih m (by omega) (fun v hv => hl v (by simp [hv])) (fun v hv => hm v (by simp [hv]))
        hlm, hxy]

theorem chunksVal_append_zeros (w : Nat) (l : List Nat) (r : Nat) :
    chunksVal w (l ++ List.replicate r 0) = chunksVal w l * 2 ^ (w * r) := by
  induction r with
  | zero => simp
  | succ r ih =>
    rw [List.replicate_succ' ]
    rw [← List.append_assoc, chunksVal_append_single, ih, Nat.mul_succ, pow_add]
    ring

theorem chunksVal_cons (w v : Nat) (l : List Nat) :
    chunksVal w (v :: l) = v * 2 ^ (w * l.length) + chunksVal w l := by
  have h0 : chunksVal w (v :: l) = l.foldl (fun a v => a * 2 ^ w + v) v := by
    simp [chunksVal]
  rw [h0, chunksVal_foldl]

theorem cbWhile_spec {tobits : Nat} (ht : 0 < tobits) (acc : Nat) :
    ∀ (fuel bits : Nat) (ret : List Nat), bits ≤ fuel →
      (cbWhile tobits ((1 <<< tobits) - 1) acc fuel bits ret).1 = bits % tobits ∧
      (cbWhile tobits ((1 <<< tobits) - 1) acc fuel bits ret).2.length * tobits +
          (cbWhile tobits ((1 <<< tobits) - 1) acc fuel bits ret).1 =
        ret.length * tobits + bits ∧
      (∀ v ∈ (cbWhile tobits ((1 <<< tobits) - 1) acc fuel bits ret).2,
          v ∈ ret ∨ v < 2 ^ tobits) ∧
      chunksVal tobits (cbWhile tobits ((1 <<< tobits) - 1) acc fuel bits ret).2 *
            2 ^ (cbWhile tobits ((1 <<< tobits) - 1) acc fuel bits ret).1 +
          acc % 2 ^ (cbWhile tobits ((1 <<< tobits) - 1) acc fuel bits ret).1 =
        chunksVal tobits ret * 2 ^ bits + acc % 2 ^ bits := by
  have hmask : ∀ z : Nat, z &&& ((1 <<< tobits) - 1) = z % 2 ^ tobits := by
    intro z
    rw [Nat.shiftLeft_eq, one_mul]
    exact Nat.and_pow_two_sub_one_eq_mod z tobits
  intro fuel
  induction fuel with
  | zero =>
    intro bits ret h
    have hb : bits = 0 := by omega
    subst hb
    
    exact ⟨by simp [cbWhile], by simp [cbWhile], fun v hv => Or.inl (by simpa [cbWhile] using hv),
      by simp [cbWhile]⟩
  | succ f ih =>
    intro bits ret h
    by_cases hb : tobits ≤ bits
    · rw [cbWhile, if_pos hb]
      obtain ⟨h1, h2, h3, h4⟩ :=
        ih (bits - tobits) (ret ++ [(acc >>> (bits - tobits)) &&& ((1 <<< tobits) - 1)])
          (by omega)
      have hbt : bits - tobits + tobits = bits := Nat.sub_add_cancel hb
      refine ⟨?_, ?_, ?_, ?_⟩
      · rw [h1]
        conv_rhs => rw [← hbt]
        rw [Nat.add_mod_right]
      · rw [h2, List.length_append, List.length_singleton, Nat.add_mul, one_mul]
        omega
      · intro v hv
        rcases h3 v hv with hv2 | hv2
        · rcases List.mem_append.1 hv2 with hv3 | hv3
          · exact Or.inl hv3
          · refine Or.inr ?_
            have hm : v = (acc >>> (bits - tobits)) &&& ((1 <<< tobits) - 1) := by
              simpa using hv3
            rw [hm, hmask]
            exact Nat.mod_lt _ (Nat.pos_pow_of_pos _ (by norm_num))
        · exact Or.inr hv2
      · rw [h4, chunksVal_append_single, hmask, Nat.shiftRight_eq_div_pow]
        have hpow : (2 : Nat) ^ bits = 2 ^ (bits - tobits) * 2 ^ tobits := by
          rw [← pow_add, hbt]
        have hmod : acc % 2 ^ bits =
            acc % 2 ^ (bits - tobits) +
              2 ^ (bits - tobits) * (acc / 2 ^ (bits - tobits) % 2 ^ tobits) := by
          rw [hpow]
          exact Nat.mod_mul
        rw [hmod, hpow]
        ring
    · rw [cbWhile, if_neg hb]
      exact ⟨(Nat.mod_eq_of_lt (by omega)).symm, rfl, fun v hv => Or.inl hv, rfl⟩

theorem convertbits_eq_fold (data : List Nat) (frombits tobits : Nat) (pad : Bool) :
    convertbits data frombits tobits pad =
      (if pad then
         (if (data.foldl (cbStep frombits tobits) (0, 0, [])).2.1 ≠ 0 then
            (data.foldl (cbStep frombits tobits) (0, 0, [])).2.2 ++
              [((data.foldl (cbStep frombits tobits) (0, 0, [])).1 <<<
                  (tobits - (data.foldl (cbStep frombits tobits) (0, 0, [])).2.1)) &&&
                ((1 <<< tobits) - 1)]
          else (data.foldl (cbStep frombits tobits) (0, 0, [])).2.2)
       else (data.foldl (cbStep frombits tobits) (0, 0, [])).2.2) := rfl

theorem cbFold_spec {frombits tobits : Nat} (hf : 0 < frombits) (ht : 0 < tobits) :
    ∀ (data : List Nat) (st : Nat × Nat × List Nat),
      (∀ v ∈ data, v < 2 ^ frombits) → st.2.1 < tobits → (∀ v ∈ st.2.2, v < 2 ^ tobits) →
      (data.foldl (cbStep frombits tobits) st).2.1 < tobits ∧
      (∀ v ∈ (data.foldl (cbStep frombits tobits) st).2.2, v < 2 ^ tobits) ∧
      (data.foldl (cbStep frombits tobits) st).2.2.length * tobits +
          (data.foldl (cbStep frombits tobits) st).2.1 =
        st.2.2.length * tobits + st.2.1 + data.length * frombits ∧
      chunksVal tobits (data.foldl (cbStep frombits tobits) st).2.2 *
            2 ^ (data.foldl (cbStep frombits tobits) st).2.1 +
          (data.foldl (cbStep frombits tobits) st).1 %
            2 ^ (data.foldl (cbStep frombits tobits) st).2.1 =
        (chunksVal tobits st.2.2 * 2 ^ st.2.1 + st.1 % 2 ^ st.2.1) *
            2 ^ (frombits * data.length) +
          chunksVal frombits data := by
  intro data
  induction data with
  | nil =>
    intro st _ h1 h2
    refine ⟨h1, h2, by simp, by simp [chunksVal]⟩
  | cons v data ih =>
    intro st hd h1 h2
    simp only [List.foldl_cons]
    have hv : v < 2 ^ frombits := hd v (by simp)
    obtain ⟨w1, w2, w3, w4⟩ :=
      cbWhile_spec ht ((st.1 <<< frombits) ||| v) (st.2.1 + frombits) (st.2.1 + frombits)
        st.2.2 le_rfl
    have hq1lt : (cbWhile tobits ((1 <<< tobits) - 1) ((st.1 <<< frombits) ||| v)
        (st.2.1 + frombits) (st.2.1 + frombits) st.2.2).1 < tobits := by
      rw [w1]; exact Nat.mod_lt _ ht
    have hq2b : ∀ x ∈ (cbWhile tobits ((1 <<< tobits) - 1) ((st.1 <<< frombits) ||| v)
        (st.2.1 + frombits) (st.2.1 + frombits) st.2.2).2, x < 2 ^ tobits := by
      intro x hx
      rcases w3 x hx with hx2 | hx2
      · exact h2 x hx2
      · exact hx2
    obtain ⟨i1, i2, i3, i4⟩ :=
      ih (cbStep frombits tobits st v) (fun x hx => hd x (by simp [hx])) hq1lt hq2b
    have hadd : (st.1 <<< frombits) ||| v = 2 ^ frombits * st.1 + v := by
      rw [Nat.shiftLeft_eq, mul_comm st.1]
      exact (Nat.mul_add_lt_is_or hv st.1).symm
    have hkey : ((st.1 <<< frombits) ||| v) % 2 ^ (st.2.1 + frombits) =
        st.1 % 2 ^ st.2.1 * 2 ^ frombits + v := by
      rw [hadd]
      have hp : (2 : Nat) ^ (st.2.1 + frombits) = 2 ^ frombits * 2 ^ st.2.1 := by
        rw [Nat.add_comm, pow_add]
      rw [hp, Nat.mod_mul]
      have hx1 : (2 ^ frombits * st.1 + v) % 2 ^ frombits = v := by
        rw [Nat.mul_add_mod, Nat.mod_eq_of_lt hv]
      have hx2 : (2 ^ frombits * st.1 + v) / 2 ^ frombits = st.1 := by
        rw [Nat.mul_add_div (Nat.pos_pow_of_pos _ (by norm_num)),
          Nat.div_eq_of_lt hv, Nat.add_zero]
      rw [hx1, hx2]
      ring
    have hw4' : chunksVal tobits (cbWhile tobits ((1 <<< tobits) - 1)
          ((st.1 <<< frombits) ||| v) (st.2.1 + frombits) (st.2.1 + frombits) st.2.2).2 *
            2 ^ (cbWhile tobits ((1 <<< tobits) - 1) ((st.1 <<< frombits) ||| v)
              (st.2.1 + frombits) (st.2.1 + frombits) st.2.2).1 +
          ((st.1 <<< frombits) ||| v) % 2 ^ (cbWhile tobits ((1 <<< tobits) - 1)
              ((st.1 <<< frombits) ||| v) (st.2.1 + frombits) (st.2.1 + frombits) st.2.2).1 =
        (chunksVal tobits st.2.2 * 2 ^ st.2.1 + st.1 % 2 ^ st.2.1) * 2 ^ frombits + v := by
      rw [w4, hkey, pow_add]
      ring
    refine ⟨i1, i2, ?_, ?_⟩
    · rw [i3]
      show (cbWhile tobits ((1 <<< tobits) - 1) ((st.1 <<< frombits) ||| v)
          (st.2.1 + frombits) (st.2.1 + frombits) st.2.2).2.length * tobits +
            (cbWhile tobits ((1 <<< tobits) - 1) ((st.1 <<< frombits) ||| v)
              (st.2.1 + frombits) (st.2.1 + frombits) st.2.2).1 + data.length * frombits =
          st.2.2.length * tobits + st.2.1 + (v :: data).length * frombits
      rw [w2, List.length_cons, Nat.succ_mul]
      omega
    · rw [i4]
      show ((chunksVal tobits (cbWhile tobits ((1 <<< tobits) - 1)
            ((st.1 <<< frombits) ||| v) (st.2.1 + frombits) (st.2.1 + frombits) st.2.2).2 *
              2 ^ (cbWhile tobits ((1 <<< tobits) - 1) ((st.1 <<< frombits) ||| v)
                (st.2.1 + frombits) (st.2.1 + frombits) st.2.2).1 +
            ((st.1 <<< frombits) ||| v) % 2 ^ (cbWhile tobits ((1 <<< tobits) - 1)
                ((st.1 <<< frombits) ||| v) (st.2.1 + frombits) (st.2.1 + frombits)
                  st.2.2).1) *
          2 ^ (frombits * data.length) + chunksVal frombits data) =
        (chunksVal tobits st.2.2 * 2 ^ st.2.1 + st.1 % 2 ^ st.2.1) *
            2 ^ (frombits * (v :: data).length) + chunksVal frombits (v :: data)
      rw [hw4', chunksVal_cons, List.length_cons]
      have hexp : (2 : Nat) ^ (frombits * (data.length + 1)) =
          2 ^ (frombits * data.length) * 2 ^ frombits := by
        rw [Nat.mul_succ, pow_add]
      rw [hexp]
      ring

theorem convertbits_pad_spec {frombits tobits : Nat} (hf : 0 < frombits) (ht : 0 < tobits)
    (data : List Nat) (hd : ∀ v ∈ data, v < 2 ^ frombits) :
    ∃ k, k < tobits ∧
      (convertbits data frombits tobits true).length * tobits = data.length * frombits + k ∧
      chunksVal tobits (convertbits data frombits tobits true) =
        chunksVal frombits data * 2 ^ k ∧
      (∀ v ∈ convertbits data frombits tobits true, v < 2 ^ tobits) := by
  obtain ⟨f1, f2, f3, f4⟩ := cbFold_spec hf ht data (0, 0, []) hd (by simpa) (by simp)
  rw [convertbits_eq_fold]
  simp only [List.length_nil, Nat.zero_mul, Nat.zero_add, chunksVal_nil,
    pow_zero, Nat.mul_one, Nat.mod_one, Nat.add_zero, Nat.mul_zero,
    Nat.zero_add] at f3 f4
  rw [show (if true = true then
      (if (data.foldl (cbStep frombits tobits) (0, 0, [])).2.1 ≠ 0 then
        (data.foldl (cbStep frombits tobits) (0, 0, [])).2.2 ++
          [((data.foldl (cbStep frombits tobits) (0, 0, [])).1 <<<
              (tobits - (data.foldl (cbStep frombits tobits) (0, 0, [])).2.1)) &&&
            ((1 <<< tobits) - 1)]
      else (data.foldl (cbStep frombits tobits) (0, 0, [])).2.2)
    else (data.foldl (cbStep frombits tobits) (0, 0, [])).2.2) =
      (if (data.foldl (cbStep frombits tobits) (0, 0, [])).2.1 ≠ 0 then
        (data.foldl (cbStep frombits tobits) (0, 0, [])).2.2 ++
          [((data.foldl (cbStep frombits tobits) (0, 0, [])).1 <<<
              (tobits - (data.foldl (cbStep frombits tobits) (0, 0, [])).2.1)) &&&
            ((1 <<< tobits) - 1)]
      else (data.foldl (cbStep frombits tobits) (0, 0, [])).2.2) from if_pos rfl]
  by_cases hb : (data.foldl (cbStep frombits tobits) (0, 0, [])).2.1 = 0
  · rw [if_neg (by simpa using hb)]
    refine ⟨0, ht, ?_, ?_, f2⟩
    · rw [hb] at f3
      omega
    · rw [hb] at f4
      simp only [pow_zero, Nat.mul_one, Nat.mod_one, Nat.add_zero] at f4
      simpa using f4
  · rw [if_pos hb]
    have hmask : ∀ z : Nat, z &&& ((1 <<< tobits) - 1) = z % 2 ^ tobits := by
      intro z
      rw [Nat.shiftLeft_eq, one_mul]
      exact Nat.and_pow_two_sub_one_eq_mod z tobits
    set B := (data.foldl (cbStep frombits tobits) (0, 0, [])).2.1 with hB
    set A := (data.foldl (cbStep frombits tobits) (0, 0, [])).1 with hA
    set R := (data.foldl (cbStep frombits tobits) (0, 0, [])).2.2 with hR
    refine ⟨tobits - B, by omega, ?_, ?_, ?_⟩
    · rw [List.length_append, List.length_singleton, Nat.add_mul, one_mul]
      omega
    · rw [chunksVal_append_single, hmask, Nat.shiftLeft_eq]
      have hpt : (2 : Nat) ^ tobits = 2 ^ B * 2 ^ (tobits - B) := by
        rw [← pow_add]
        congr 1
        omega
      rw [hpt, Nat.mul_mod_mul_right]
      calc chunksVal tobits R * (2 ^ B * 2 ^ (tobits - B)) + A % 2 ^ B * 2 ^ (tobits - B)
          = (chunksVal tobits R * 2 ^ B + A % 2 ^ B) * 2 ^ (tobits - B) := by ring
        _ = chunksVal frombits data * 2 ^ (tobits - B) := by rw [f4]
    · intro v hv
      rcases List.mem_append.1 hv with hv | hv
      · exact f2 v hv
      · have : v = (A <<< (tobits - B)) &&& ((1 <<< tobits) - 1) := by simpa using hv
        rw [this, hmask]
        exact Nat.mod_lt _ (Nat.pos_pow_of_pos _ (by norm_num))

/-- C9: converting a byte string from 8-bit to 5-bit groups with padding and
back from 5-bit to 8-bit groups with padding reproduces the bytes up to
trailing zero padding: the output starts with exactly the original bytes,
and every byte beyond them is zero. -/
theorem c9_convertbits_roundtrip (data : List Nat) (hd : ∀ b ∈ data, b < 256) :
    (convertbits (convertbits data 8 5 true) 5 8 true).take data.length = data ∧
    (∀ y ∈ (convertbits (convertbits data 8 5 true) 5 8 true).drop data.length, y = 0) := by
  obtain ⟨k1, hk1, hl1, hv1, he1⟩ :=
    @convertbits_pad_spec 8 5 (by norm_num) (by norm_num) data
      (fun v hv => by simpa using hd v hv)
  obtain ⟨k2, hk2, hl2, hv2, he2⟩ :=
    @convertbits_pad_spec 5 8 (by norm_num) (by norm_num) (convertbits data 8 5 true) he1
  have hge : data.length ≤ (convertbits (convertbits data 8 5 true) 5 8 true).length := by
    nlinarith
  have h8r : 8 * ((convertbits (convertbits data 8 5 true) 5 8 true).length - data.length) =
      k1 + k2 := by omega
  have href : chunksVal 8 (data ++ List.replicate
      ((convertbits (convertbits data 8 5 true) 5 8 true).length - data.length) 0) =
      chunksVal 8 (convertbits (convertbits data 8 5 true) 5 8 true) := by
    rw [chunksVal_append_zeros, hv2, hv1, h8r, pow_add]
    ring
  have hlenref : (data ++ List.replicate
      ((convertbits (convertbits data 8 5 true) 5 8 true).length - data.length) 0).length =
      (convertbits (convertbits data 8 5 true) 5 8 true).length := by
    simp only [List.length_append, List.length_replicate]
    omega
  have heq := chunksVal_inj 8 _ _ hlenref
    (by
      intro v hv
      rcases List.mem_append.1 hv with hv | hv
      · have := hd v hv
        norm_num
        omega
      · have := List.eq_of_mem_replicate hv
        subst this
        norm_num)
    he2 href
  refine ⟨?_, ?_⟩
  · rw [← heq, List.take_left]
  · intro y hy
    rw [← heq, List.drop_left] at hy
    exact List.eq_of_mem_replicate hy

/-- C9 (witness for `c9_convertbits_roundtrip`): the bytes `[255, 1]`. -/
theorem c9_convertbits_roundtrip_witness :
    (convertbits (convertbits [255, 1] 8 5 true) 5 8 true).take 2 = [255, 1] ∧
    (∀ y ∈ (convertbits (convertbits [255, 1] 8 5 true) 5 8 true).drop 2, y = 0) :=
  c9_convertbits_roundtrip [255, 1] (by decide)

/-- C2 (counterexample): at a reduced nonce of 0 (with sighash value 1 and
private scalar 1) the signer does not fail with `SigningDegenerate`: it
silently substitutes `k = 1` and returns the signature `(Gx, Gx + 1)`. -/
theorem c2_zero_nonce_not_rejected :
    signWithReduced 0 1 1 =
      Except.ok (0x79BE667EF9DCBBAC55A06295CE870B07029BFCDB2DCE28D959F2815B16F81798,
                 0x79BE667EF9DCBBAC55A06295CE870B07029BFCDB2DCE28D959F2815B16F81799) := by
  rfl

/-- C2 (amended): the signing stage never fails with `SigningDegenerate` for
any reduced nonce; when the reduction yields 0 it substitutes the alternate
nonce 1 and continues signing. -/
theorem c2_zero_nonce_substituted :
    ∀ k0 z d : Nat,
      signWithReduced k0 z d ≠ Except.error SignErr.SigningDegenerate ∧
      (k0 = 0 → signWithReduced k0 z d = ecdsaSignK 1 z d) := by
  intro k0 z d
  constructor
  · unfold signWithReduced ecdsaSignK
    cases scalar_mult (nonceFromReduced k0) (secpGx, secpGy) with
    | none => simp
    | some xy =>
      obtain ⟨x, y⟩ := xy
      cases modInv (nonceFromReduced k0) secpN with
      | none => simp
      | some kinv => simp
  · intro h
    subst h
    rfl

/-- C2 (witness for `c2_zero_nonce_substituted`): the concrete zero-nonce
instance. -/
theorem c2_zero_nonce_substituted_witness :
    signWithReduced 0 1 1 ≠ Except.error SignErr.SigningDegenerate ∧
    signWithReduced 0 1 1 = ecdsaSignK 1 1 1 :=
  ⟨(c2_zero_nonce_substituted 0 1 1).1, (c2_zero_nonce_substituted 0 1 1).2 rfl⟩

theorem foldl_append_eq_join_map {α : Type} (f : α → List Nat) (l : List α) :
    ∀ init : List Nat, l.foldl (fun acc x => acc ++ f x) init = init ++ (l.map f).join := by
  induction l with
  | nil => intro init; simp
  | cons x l ih =>
    intro init
    simp only [List.foldl_cons, List.map_cons, List.join]
    rw [ih (init ++ f x)]
    simp

/-- C1: for every transaction (inputs and outputs as parsed), signing index,
previous outpoint, previous value and private key, the P2WPKH SIGHASH_ALL
sighash the code computes is the double-SHA256 of exactly the claimed
concatenation, with hashPrevouts/hashSequence/hashOutputs as claimed and the
scriptCode the fixed 25-byte template over the 20-byte hash160 of the
signer's compressed public key. -/
theorem c1_sighash_bip143 (version : List Nat) (inputs : List TxIn) (outputs : List TxOut)
    (locktime : List Nat) (input_index : Nat) (prev_txid : List Nat)
    (prev_vout prev_value : Nat) (privkey : List Nat)
    (hidx : input_index < inputs.length) (hvout : prev_vout < 2 ^ 32)
    (hval : prev_value < 2 ^ 64) :
    sighash_code version inputs outputs locktime input_index prev_txid prev_vout prev_value
        (hash160 (privkey_to_pubkey privkey)) =
      double_sha256 (c1Preimage version inputs outputs locktime input_index prev_txid
        prev_vout prev_value (hash160 (privkey_to_pubkey privkey))) ∧
    (hash160 (privkey_to_pubkey privkey)).length = 20 := by
  constructor
  · rw [sighash_code, bip143_preimage, c1Preimage]
    rw [foldl_append_eq_join_map, foldl_append_eq_join_map, foldl_append_eq_join_map]
    rw [c1HashPrevouts, c1HashSequence, c1HashOutputs, c1ScriptCode]
    rfl
  · exact length_hash160 _

/-- C1 (witness for `c1_sighash_bip143`): a concrete one-input, one-output
transaction. -/
theorem c1_sighash_bip143_witness :
    sighash_code [2, 0, 0, 0] [⟨List.range 32, 5, [0xde, 0xad], [255, 255, 255, 255]⟩]
        [⟨[16, 39, 0, 0, 0, 0, 0, 0], [0x51]⟩] [0, 0, 0, 0] 0 (List.range 32) 1 50000
        (hash160 (privkey_to_pubkey [7])) =
      double_sha256 (c1Preimage [2, 0, 0, 0]
        [⟨List.range 32, 5, [0xde, 0xad], [255, 255, 255, 255]⟩]
        [⟨[16, 39, 0, 0, 0, 0, 0, 0], [0x51]⟩] [0, 0, 0, 0] 0 (List.range 32) 1 50000
        (hash160 (privkey_to_pubkey [7]))) ∧
    (hash160 (privkey_to_pubkey [7])).length = 20 :=
  c1_sighash_bip143 [2, 0, 0, 0] [⟨List.range 32, 5, [0xde, 0xad], [255, 255, 255, 255]⟩]
    [⟨[16, 39, 0, 0, 0, 0, 0, 0], [0x51]⟩] [0, 0, 0, 0] 0 (List.range 32) 1 50000 [7]
    (by decide) (by decide) (by decide)

theorem append_last4_eq {u v : List Nat} {a b c d a' b' c' d' : Nat}
    (h : u ++ [a, b, c, d] = v ++ [a', b', c', d']) : a = a' := by
  have hr := congrArg List.reverse h
  simp only [List.reverse_append, List.reverse_cons, List.reverse_nil, List.nil_append,
    List.append_assoc, List.cons_append, List.cons.injEq] at hr
  exact hr.2.2.2.1

/-- C3 (counterexample): on a concrete two-input transaction, the one
preimage the signing operation can produce is not the ANYONECANPAY
preimage — no mode of `sign_segwit_input` produces it (their sighash-type
fields already differ: `0x01` vs `0x81`). -/
theorem c3_no_anyonecanpay_mode :
    bip143_preimage [2, 0, 0, 0]
        [⟨List.range 32, 0, [], [255, 255, 255, 255]⟩,
         ⟨(List.range 32).map (fun i => i + 1), 1, [], [254, 255, 255, 255]⟩]
        [⟨[0, 0, 0, 0, 0, 0, 0, 0], [0x51]⟩] [0, 0, 0, 0] 0 (List.range 32) 0 1000
        (List.replicate 20 0) ≠
      acpPreimage [2, 0, 0, 0]
        [⟨List.range 32, 0, [], [255, 255, 255, 255]⟩,
         ⟨(List.range 32).map (fun i => i + 1), 1, [], [254, 255, 255, 255]⟩]
        [⟨[0, 0, 0, 0, 0, 0, 0, 0], [0x51]⟩] [0, 0, 0, 0] 0 (List.range 32) 0 1000
        (List.replicate 20 0) := by
  intro h
  rw [bip143_preimage, acpPreimage] at h
  exact absurd (append_last4_eq h) (by norm_num)

/-- C3 (amended): the signing operation has a single mode, plain
SIGHASH_ALL; the preimage it builds is never the ALL|ANYONECANPAY preimage
described in the spec, for any transaction and signing index whatsoever —
the two differ already in the trailing sighash-type field (`01` vs `81`),
and the plain mode hashes all prevouts and all sequences rather than the
single outpoint and 32 zero bytes. -/
theorem c3_plain_all_only (version : List Nat) (inputs : List TxIn) (outputs : List TxOut)
    (locktime : List Nat) (input_index : Nat) (prev_txid : List Nat)
    (prev_vout prev_value : Nat) (pubkey_hash : List Nat) :
    bip143_preimage version inputs outputs locktime input_index prev_txid prev_vout
        prev_value pubkey_hash ≠
      acpPreimage version inputs outputs locktime input_index prev_txid prev_vout
        prev_value pubkey_hash := by
  intro h
  rw [bip143_preimage, acpPreimage] at h
  exact absurd (append_last4_eq h) (by norm_num)

/-- C10: on any transaction it parses, `sign_segwit_input` returns exactly
the segwit serialization of the parsed transaction in which every input's
scriptSig has been emptied (even a non-empty parsed one), the signed input
carries exactly the 2-element witness `[DER-signature‖0x01, pubkey]`, every
other input carries the empty stack, any original witness data is gone, and
version, txids, vouts, sequences, outputs and locktime are carried over
unchanged. -/
theorem c10_sign_rebuild_frame (tx_bytes : List Nat) (input_index : Nat)
    (prev_txid : List Nat) (prev_vout prev_value : Nat) (privkey : List Nat)
    (version : List Nat) (inputs : List TxIn) (outputs : List TxOut) (locktime : List Nat)
    (hparse : parseTx tx_bytes = some (version, inputs, outputs, locktime))
    (hidx : input_index < inputs.length) :
    sign_segwit_core tx_bytes input_index prev_txid prev_vout prev_value privkey =
      some (serializeSegwitTx version
        (inputs.map (fun i => { i with script_sig := [] }))
        outputs
        ((List.range inputs.length).map (fun i =>
          if i = input_index then
            [witnessSignature privkey
               (sighash_code version inputs outputs locktime input_index prev_txid
                 prev_vout prev_value (hash160 (privkey_to_pubkey privkey))),
             privkey_to_pubkey privkey]
          else []))
        locktime) := by
  have hcore : sign_segwit_core tx_bytes input_index prev_txid prev_vout prev_value privkey =
      some (rebuildSignedTx version inputs outputs locktime input_index
        (witnessSignature privkey
          (sighash_code version inputs outputs locktime input_index prev_txid prev_vout
            prev_value (hash160 (privkey_to_pubkey privkey))))
        (privkey_to_pubkey privkey)) := by
    unfold sign_segwit_core
    rw [hparse]
  rw [hcore]
  congr 1
  rw [rebuildSignedTx, serializeSegwitTx]
  rw [foldl_append_eq_join_map, foldl_append_eq_join_map, foldl_append_eq_join_map]
  have hlen : (inputs.map (fun i => ({ i with script_sig := [] } : TxIn))).length =
      inputs.length := by simp
  rw [hlen]
  have hins : ((inputs.map (fun i => ({ i with script_sig := [] } : TxIn))).map
        (fun i => serializeInput i)).join =
      (inputs.map
        (fun inp => inp.txid.reverse ++ leBytes 4 inp.vout ++ [0x00] ++ inp.sequence)).join := by
    rw [List.map_map]
    refine congrArg (fun l => List.join l)
      (congrArg (fun f => List.map f inputs) (funext fun i => ?_))
    simp [serializeInput, show encode_varint 0 = [0] from rfl]
  have hwit : (((List.range inputs.length).map (fun i =>
        if i = input_index then
          [witnessSignature privkey
             (sighash_code version inputs outputs locktime input_index prev_txid
               prev_vout prev_value (hash160 (privkey_to_pubkey privkey))),
           privkey_to_pubkey privkey]
        else [])).map (fun s => serializeWitnessStack s)).join =
      ((List.range inputs.length).map (fun i =>
        if i = input_index then
          [0x02] ++
            encode_varint (witnessSignature privkey
              (sighash_code version inputs outputs locktime input_index prev_txid
                prev_vout prev_value (hash160 (privkey_to_pubkey privkey)))).length ++
            witnessSignature privkey
              (sighash_code version inputs outputs locktime input_index prev_txid
                prev_vout prev_value (hash160 (privkey_to_pubkey privkey))) ++
            encode_varint (privkey_to_pubkey privkey).length ++ privkey_to_pubkey privkey
        else [0x00])).join := by
    rw [List.map_map]
    refine congrArg (fun l => List.join l)
      (congrArg (fun f => List.map f (List.range inputs.length)) (funext fun i => ?_))
    by_cases hi : i = input_index
    · simp only [hi, if_pos rfl, Function.comp_apply, serializeWitnessStack]
      simp [show encode_varint 2 = [2] from rfl, List.append_assoc]
    · simp only [Function.comp_apply, if_neg hi, serializeWitnessStack]
      simp [show encode_varint 0 = [0] from rfl]
  rw [hins, hwit]
  simp only [List.nil_append]
  rfl

/-- C10 (witness for `c10_sign_rebuild_frame`): a concrete legacy-encoded
one-input, one-output transaction whose parsed scriptSig is non-empty. -/
theorem c10_sign_rebuild_frame_witness :
    sign_segwit_core
        ([2, 0, 0, 0, 1] ++ List.range 32 ++
          [5, 0, 0, 0, 2, 0xde, 0xad, 255, 255, 255, 255, 1,
           16, 39, 0, 0, 0, 0, 0, 0, 1, 0x51, 9, 0, 0, 0])
        0 (List.range 32) 7 50000 [11] =
      some (serializeSegwitTx [2, 0, 0, 0]
        (([⟨(List.range 32).reverse, 5, [0xde, 0xad], [255, 255, 255, 255]⟩] : List TxIn).map
          (fun i => { i with script_sig := [] }))
        [⟨[16, 39, 0, 0, 0, 0, 0, 0], [0x51]⟩]
        ((List.range
            ([⟨(List.range 32).reverse, 5, [0xde, 0xad], [255, 255, 255, 255]⟩] :
              List TxIn).length).map
          (fun i =>
            if i = 0 then
              [witnessSignature [11]
                 (sighash_code [2, 0, 0, 0]
                   [⟨(List.range 32).reverse, 5, [0xde, 0xad], [255, 255, 255, 255]⟩]
                   [⟨[16, 39, 0, 0, 0, 0, 0, 0], [0x51]⟩] [9, 0, 0, 0] 0 (List.range 32) 7
                   50000 (hash160 (privkey_to_pubkey [11]))),
               privkey_to_pubkey [11]]
            else []))
        [9, 0, 0, 0]) :=
  c10_sign_rebuild_frame
    ([2, 0, 0, 0, 1] ++ List.range 32 ++
      [5, 0, 0, 0, 2, 0xde, 0xad, 255, 255, 255, 255, 1,
       16, 39, 0, 0, 0, 0, 0, 0, 1, 0x51, 9, 0, 0, 0])
    0 (List.range 32) 7 50000 [11] [2, 0, 0, 0]
    [⟨(List.range 32).reverse, 5, [0xde, 0xad], [255, 255, 255, 255]⟩]
    [⟨[16, 39, 0, 0, 0, 0, 0, 0], [0x51]⟩] [9, 0, 0, 0] (by decide) (by decide)

/-- C4: whenever the sum of input values (funding + commit) is strictly
below the sum of output values, the builder fails with `InsufficientFunds`
carrying exactly those two sums — whose difference is exactly the
shortfall — and yields no transaction bytes; whenever the inputs cover the
outputs, the balance check passes and the serialized transaction is
returned. -/
theorem c4_insufficient_funds (outputs : List RevealOutput) (commit_txid : List Nat)
    (commit_value : Nat) (commit_witness : List (List Nat))
    (addrScript : String → List Nat) (funding_txid : List Nat)
    (funding_vout funding_value : Nat) (funding_witness : List Nat) :
    (funding_value + commit_value < totalOutputs outputs →
      build_transaction outputs commit_txid commit_value commit_witness addrScript
          funding_txid funding_vout funding_value funding_witness =
        Except.error (BuildErr.insufficientFunds (funding_value + commit_value)
          (totalOutputs outputs)) ∧
      totalOutputs outputs - (funding_value + commit_value) =
        (outputs.map (fun o => o.value)).sum - (funding_value + commit_value) ∧
      (∀ bytes, build_transaction outputs commit_txid commit_value commit_witness
          addrScript funding_txid funding_vout funding_value funding_witness ≠
        Except.ok bytes)) ∧
    (totalOutputs outputs ≤ funding_value + commit_value →
      build_transaction outputs commit_txid commit_value commit_witness addrScript
          funding_txid funding_vout funding_value funding_witness =
        Except.ok (reveal_tx_body outputs commit_txid commit_witness addrScript
          funding_txid funding_vout funding_witness)) := by
  constructor
  · intro h
    refine ⟨by rw [build_transaction, if_pos h], rfl, fun bytes hb => ?_⟩
    rw [build_transaction, if_pos h] at hb
    exact absurd hb (by simp)
  · intro h
    rw [build_transaction, if_neg (by omega)]

/-- C4 (witness for `c4_insufficient_funds`): the repository's real output
set (547 + 1434 + 996853 = 998834 sats) and commit value (499778 sats),
once with a 100-sat funding input (shortfall) and once with the 500000-sat
funding input of the spec's end-to-end scenario (covered). -/
theorem c4_insufficient_funds_witness :
    build_transaction
        [⟨"tb1qr25l2p34sv4wnz4q0cuh4g9jd9qh2eua6y5awq", 547⟩,
         ⟨"tb1qrk6da5g0592sx6lmgpchaf5qy2lgn8am7cuf3a", 1434⟩,
         ⟨"tb1qr25l2p34sv4wnz4q0cuh4g9jd9qh2eua6y5awq", 996853⟩]
        [] 499778 [] (fun _ => []) [] 0 100 [] =
      Except.error (BuildErr.insufficientFunds (100 + 499778) 998834) ∧
    build_transaction
        [⟨"tb1qr25l2p34sv4wnz4q0cuh4g9jd9qh2eua6y5awq", 547⟩,
         ⟨"tb1qrk6da5g0592sx6lmgpchaf5qy2lgn8am7cuf3a", 1434⟩,
         ⟨"tb1qr25l2p34sv4wnz4q0cuh4g9jd9qh2eua6y5awq", 996853⟩]
        [] 499778 [] (fun _ => []) [] 0 500000 [] =
      Except.ok (reveal_tx_body
        [⟨"tb1qr25l2p34sv4wnz4q0cuh4g9jd9qh2eua6y5awq", 547⟩,
         ⟨"tb1qrk6da5g0592sx6lmgpchaf5qy2lgn8am7cuf3a", 1434⟩,
         ⟨"tb1qr25l2p34sv4wnz4q0cuh4g9jd9qh2eua6y5awq", 996853⟩]
        [] [] (fun _ => []) [] 0 []) := by
  constructor
  · exact ((c4_insufficient_funds _ _ _ _ _ _ _ _ _).1 (by norm_num [totalOutputs])).1
  · exact (c4_insufficient_funds _ _ _ _ _ _ _ _ _).2 (by norm_num [totalOutputs])
